import Mathlib

set_option linter.unusedVariables false

/-!
# Verification of the UTrie3 frozen code-point trie (utrie3.cpp)

A shallow embedding of the frozen (read-only) UTrie3 data structure and the
public entry points of `icu4c/source/common/utrie3.cpp`:

* `utrie3_get`              — point lookup,
* `utrie3_getRange`         — range enumeration,
* `utrie3_openFromSerialized` / `utrie3_serialize` — the serialization codec,
* `utrie3_clone`, `utrie3_swap`, `utrie3_getVersion`,
* `utrie3_internalU8PrevIndex` — the backward UTF-8 helper.

Machine integers are modelled as `Nat` (unsigned) and `Int` (signed `UChar32`,
lengths, capacities), with wrap-around made explicit where the source casts.
Arrays are `List Nat`; out-of-bounds reads use `List.getD _ _ 0`.

The layout constants, the `UTrie3Header` struct, the index macros
(`_UTRIE3_INDEX_FROM_BMP`, `_UTRIE3_INDEX_FROM_SUPP`) and the backward UTF-8
decoder `utf8_prevCharSafeBody` live in headers (`utrie3.h`, `utrie3_impl.h`,
`utf8.h`) that are not part of the sources; they are modelled from the
specification and flagged as such in their doc comments.
-/

/-! ## Layout constants (§3.2 of the spec)

Modelled from the spec: the `UTRIE3_*` constants are defined in
`utrie3.h`/`utrie3_impl.h`, which are not among the sources. -/

def UTRIE3_SHIFT_1 : Nat := 14
def UTRIE3_SHIFT_2 : Nat := 5
def UTRIE3_SHIFT_1_2 : Nat := 9
def UTRIE3_INDEX_SHIFT : Nat := 2
def UTRIE3_DATA_BLOCK_LENGTH : Nat := 32
def UTRIE3_DATA_MASK : Nat := 31
def UTRIE3_INDEX_2_BLOCK_LENGTH : Nat := 512
def UTRIE3_INDEX_2_MASK : Nat := 511
def UTRIE3_CP_PER_INDEX_1_ENTRY : Nat := 16384
def UTRIE3_INDEX_2_BMP_LENGTH : Nat := 2048
def UTRIE3_OMITTED_BMP_INDEX_1_LENGTH : Nat := 4
def UTRIE3_INDEX_1_OFFSET : Nat := 2048
def UTRIE3_DATA_START_OFFSET : Nat := 128

/-- Modelled from the spec: serialized signature, "Tri3" (sibling of the
`UTRIE2_SIG = 0x54726932` visible in the source). -/
def UTRIE3_SIG : Nat := 0x54726933
/-- Byte-reversed (opposite-endianness) form of `UTRIE3_SIG`. -/
def UTRIE3_OE_SIG : Nat := 0x33697254

/-- Modelled from the spec: `options` is `(dataNullOffset << 12) | valueWidthCode`
with reserved mask `0x0F00`, so the value-width field is the low byte. -/
def UTRIE3_OPTIONS_VALUE_BITS_MASK : Nat := 0xff
def UTRIE3_OPTIONS_RESERVED_MASK : Nat := 0x0f00

/-- Signatures of the older trie versions (defined in utrie3.cpp itself). -/
def UTRIE_SIG : Nat := 0x54726965
def UTRIE_OE_SIG : Nat := 0x65697254
def UTRIE2_SIG : Nat := 0x54726932
def UTRIE2_OE_SIG : Nat := 0x32697254

def MAX_UNICODE : Nat := 0x10ffff

/-! ## Error channel -/

/-- The subset of `UErrorCode` used by utrie3.cpp. `zero` is `U_ZERO_ERROR`. -/
inductive UErrorCode where
  | zero
  | illegalArgument
  | invalidFormat
  | indexOutofbounds
  | bufferOverflow
  | memoryAllocation
deriving DecidableEq, Repr

/-- `U_FAILURE(*pErrorCode)` — every error code other than `U_ZERO_ERROR`
used here is a failure. -/
def U_FAILURE (ec : UErrorCode) : Bool := ec != UErrorCode.zero

/-! ## The frozen trie (struct UTrie3) -/

/-- The frozen trie.  `index` is the 16-bit array; when the value width is
16 bits (`data32 = none`) the data array is the tail of this same storage
(the C `data16` pointer is `index + indexLength`), so `index` then holds
`indexLength + dataLength` entries.  When the value width is 32 bits the
data lives in `data32`. -/
structure UTrie3 where
  index : List Nat
  data32 : Option (List Nat)
  indexLength : Nat
  dataLength : Nat
  index2NullOffset : Nat
  dataNullOffset : Nat
  highStart : Nat
  shiftedHighStart : Nat
  highValue : Nat
  errorValue : Nat
  initialValue : Nat
deriving Repr, DecidableEq

/-- First data index: `0` for a 32-bit trie (separate `data32` array),
`indexLength` for a 16-bit trie (data aliased into the index storage). -/
def UTrie3.dataStart (t : UTrie3) : Nat :=
  match t.data32 with
  | none => t.indexLength
  | some _ => 0

/-- One past the last data index, in the same coordinates as `dataStart`. -/
def UTrie3.dataEnd (t : UTrie3) : Nat := t.dataStart + t.dataLength

/-- `data32 == nullptr ? trie->index[di] : trie->data32[di]` — the common
data read of the lookup paths. -/
def UTrie3.readData (t : UTrie3) (di : Nat) : Nat :=
  match t.data32 with
  | none => t.index.getD di 0
  | some d => d.getD di 0

/-- `(uint32_t)c` for a signed 32-bit `c`: reduction mod `2^32`. -/
def toUInt32 (c : Int) : Nat := (c % 4294967296).toNat

/-- Modelled from the spec (the macro `_UTRIE3_INDEX_FROM_BMP` is in
`utrie3.h`, not among the sources): the BMP index entries store
*already shifted* data-block offsets, so no `INDEX_SHIFT` is applied
(§4.1 step 4 with the "pre-shifted" note, and consistent with the
`i2Block >= UTRIE3_INDEX_2_BMP_LENGTH` shift condition in
`utrie3_getRange`). -/
def indexFromBMP (index : List Nat) (c : Nat) : Nat :=
  index.getD (c / 32) 0 + c % 32

/-- Modelled from the spec (`_UTRIE3_INDEX_FROM_SUPP` of `utrie3.h`):
supplementary lookup through index-1 and an index-2 block whose entries are
shifted left by `UTRIE3_INDEX_SHIFT` (§4.1 step 5). -/
def indexFromSupp (index : List Nat) (c : Nat) : Nat :=
  let i2Block := index.getD ((UTRIE3_INDEX_1_OFFSET - UTRIE3_OMITTED_BMP_INDEX_1_LENGTH)
      + c / 16384) 0
  index.getD (i2Block + c / 32 % 512) 0 * 4 + c % 32

/-- `utrie3_get` (utrie3.cpp lines 174–201). -/
def utrie3_get (t : UTrie3) (c : Int) : Nat :=
  if toUInt32 c ≤ 0x7f then
    -- linear ASCII
    match t.data32 with
    | none => t.index.getD (t.indexLength + toUInt32 c) 0   -- trie->data16[c]
    | some d => d.getD (toUInt32 c) 0
  else if toUInt32 c ≤ 0xffff then
    t.readData (indexFromBMP t.index (toUInt32 c))
  else if 0x10ffff < toUInt32 c then
    t.errorValue
  else if (t.highStart : Int) ≤ c then
    t.highValue
  else
    t.readData (indexFromSupp t.index (toUInt32 c))

/-! ## Range enumeration (`utrie3_getRange`, utrie3.cpp lines 203–333)

The C loop is a `do { … } while (c < highStart)` with an inner `for` over one
index-2 block and an innermost `while` over one data block.  Each is modelled
as its own recursive function; the state threaded through is exactly the C
locals `c`, `prevI2Block`, `prevBlock`, and (`haveValue`, `value`) combined
into an `Option Nat` that also records what was stored into `*pValue`. -/

/-- The `handleValue` callback with its opaque `context` already applied:
`none` models a null callback. -/
abbrev UTrie3HandleValue := Option (Nat → Nat)

/-- `maybeHandleValue` (utrie3.cpp lines 207–215). -/
def maybeHandleValue (value initialValue nullValue : Nat) (f : UTrie3HandleValue) : Nat :=
  if value = initialValue then
    nullValue
  else
    match f with
    | some h => h value
    | none => value

/-- The `nullValue` local of `utrie3_getRange` (lines 234–235):
`initialValue`, passed through the callback when one is present. -/
def nullValueOf (t : UTrie3) (f : UTrie3HandleValue) : Nat :=
  match f with
  | some h => h t.initialValue
  | none => t.initialValue

/-- The innermost loop of `utrie3_getRange` (lines 316–322):
`while ((++c & UTRIE3_DATA_MASK) != 0) { if (maybeHandleValue(data[++di], …) != value) return c - 1; }`.
`c` and `di` are the values *before* the pre-increments; `.inl e` is an early
`return e` (the C `c - 1` after `++c`, i.e. the pre-increment `c`), `.inr c2`
is the value of `c` when the loop exits. -/
def scanData (t : UTrie3) (f : UTrie3HandleValue) (nullValue value : Nat)
    (c di : Nat) : Sum Nat Nat :=
  if (c + 1) % 32 = 0 then
    Sum.inr (c + 1)
  else if maybeHandleValue (t.readData (di + 1)) t.initialValue nullValue f ≠ value then
    Sum.inl c
  else
    scanData t f nullValue value (c + 1) (di + 1)
termination_by 32 - c % 32
decreasing_by omega

/-- Result of the inner `for(; i2 < UTRIE3_INDEX_2_BLOCK_LENGTH; ++i2)` loop:
either an early `return e` (with the current `*pValue` contents), or fall
through to the outer loop with the updated `c`, `prevBlock` and value state. -/
inductive InnerResult where
  | ret (e : Int) (v : Option Nat)
  | cont (c : Nat) (prevBlock : Int) (v : Option Nat)
deriving Repr

/-- The inner loop of `utrie3_getRange` (lines 277–324): enumerate the data
blocks of one index-2 block.  `block <<= UTRIE3_INDEX_SHIFT` is applied only
for supplementary index-2 blocks (`i2Block >= UTRIE3_INDEX_2_BMP_LENGTH`);
`(c + 32) & ~UTRIE3_DATA_MASK` is written `(c + 32) / 32 * 32`. -/
def innerLoop (t : UTrie3) (f : UTrie3HandleValue) (nullValue : Nat) (start : Nat)
    (i2Block : Nat) (i2 : Nat) (c : Nat) (prevBlock : Int) (v : Option Nat) : InnerResult :=
  if _h512 : i2 < 512 then
    let block0 := t.index.getD (i2Block + i2) 0
    let block := if 2048 ≤ i2Block then block0 * 4 else block0
    if (block : Int) = prevBlock ∧ 32 ≤ c - start then
      -- same data block as before, filled with value: skip it
      innerLoop t f nullValue start i2Block (i2 + 1) (c + 32) prevBlock v
    else if block = t.dataNullOffset then
      -- the data null block
      match v with
      | some value =>
        if nullValue ≠ value then
          .ret ((c : Int) - 1) v
        else
          innerLoop t f nullValue start i2Block (i2 + 1) ((c + 32) / 32 * 32) (block : Int) v
      | none =>
        innerLoop t f nullValue start i2Block (i2 + 1) ((c + 32) / 32 * 32) (block : Int)
          (some nullValue)
    else
      let di := block + c % 32
      let value2 := maybeHandleValue (t.readData di) t.initialValue nullValue f
      match v with
      | some value =>
        if value2 ≠ value then
          .ret ((c : Int) - 1) v
        else
          match scanData t f nullValue value c di with
          | .inl e => .ret (e : Int) v
          | .inr c2 => innerLoop t f nullValue start i2Block (i2 + 1) c2 (block : Int) v
      | none =>
        match scanData t f nullValue value2 c di with
        | .inl e => .ret (e : Int) (some value2)
        | .inr c2 =>
          innerLoop t f nullValue start i2Block (i2 + 1) c2 (block : Int) (some value2)
  else
    .cont c prevBlock v
termination_by 512 - i2
decreasing_by all_goals omega

/-- Lines 326–332: after the outer loop exits (`c >= highStart`), a single
comparison against the transformed `highValue` decides whether the run
extends to `MAX_UNICODE`.  `U_ASSERT(haveValue)` makes the `none` case
unreachable; it is given an arbitrary defined result. -/
def afterHigh (t : UTrie3) (f : UTrie3HandleValue) (nullValue : Nat)
    (c : Nat) (v : Option Nat) : Int × Option Nat :=
  match v with
  | some value =>
    if maybeHandleValue t.highValue t.initialValue nullValue f ≠ value then
      ((c : Int) - 1, v)
    else
      ((MAX_UNICODE : Int), v)
  | none => ((MAX_UNICODE : Int), none)

/-- The outer `do { … } while (c < highStart)` of `utrie3_getRange`
(lines 244–325).  Every iteration advances `c` by at least one code point and
the loop stops once `c >= highStart`, so `highStart` iterations always
suffice; the structural `fuel` argument makes that bound explicit (it is
initialized to `highStart` and never runs out — see
`outerLoop_spec`).  `(c + 16384) & ~(UTRIE3_CP_PER_INDEX_1_ENTRY - 1)` is
written `(c + 16384) / 16384 * 16384`, and the BMP
`(c >> UTRIE3_SHIFT_2) & ~UTRIE3_INDEX_2_MASK` is `c / 32 / 512 * 512`.
The supplementary same-index-2-block shortcut (lines 252–259) only applies
for `c > 0xffff`. -/
def outerLoop (t : UTrie3) (f : UTrie3HandleValue) (nullValue : Nat) (start : Nat) :
    Nat → Nat → Int → Int → Option Nat → Int × Option Nat
  | 0, c, _, _, v => afterHigh t f nullValue c v
  | fuel + 1, c, prevI2Block, prevBlock, v =>
    let i2Block := if c ≤ 0xffff then c / 32 / 512 * 512
                   else t.index.getD ((2048 - 4) + c / 16384) 0
    if 0xffff < c ∧ (i2Block : Int) = prevI2Block ∧ 16384 ≤ c - start then
      -- same supplementary index-2 block as before, filled with value
      let c2 := c + 16384
      if c2 < t.highStart then
        outerLoop t f nullValue start fuel c2 prevI2Block prevBlock v
      else
        afterHigh t f nullValue c2 v
    else if i2Block = t.index2NullOffset then
      -- the index-2 null block
      match v with
      | some value =>
        if nullValue ≠ value then
          ((c : Int) - 1, v)
        else
          let c2 := (c + 16384) / 16384 * 16384
          if c2 < t.highStart then
            outerLoop t f nullValue start fuel c2 (i2Block : Int) (t.dataNullOffset : Int) v
          else
            afterHigh t f nullValue c2 v
      | none =>
        let c2 := (c + 16384) / 16384 * 16384
        if c2 < t.highStart then
          outerLoop t f nullValue start fuel c2 (i2Block : Int) (t.dataNullOffset : Int)
            (some nullValue)
        else
          afterHigh t f nullValue c2 (some nullValue)
    else
      match innerLoop t f nullValue start i2Block (c / 32 % 512) c prevBlock v with
      | .ret e v' => (e, v')
      | .cont c2 pb' v' =>
        if c2 < t.highStart then
          outerLoop t f nullValue start fuel c2 (i2Block : Int) pb' v'
        else
          afterHigh t f nullValue c2 v'

/-- `utrie3_getRange` (utrie3.cpp lines 219–333).  The second component is
what the function stores through `*pValue` (`none` when `*pValue` is left
untouched). -/
def utrie3_getRange (t : UTrie3) (start : Int) (f : UTrie3HandleValue) : Int × Option Nat :=
  if MAX_UNICODE < toUInt32 start then
    (-1, none)     -- U_SENTINEL
  else if (t.highStart : Int) ≤ start then
    let value := t.highValue
    let value := match f with | some h => h value | none => value
    ((MAX_UNICODE : Int), some value)
  else
    outerLoop t f (nullValueOf t f) start.toNat t.highStart start.toNat (-1) (-1) none

/-! ## Backward UTF-8 helper (`utrie3_internalU8PrevIndex`, lines 335–362) -/

/-- Modelled from the spec (§4.7): the decoder `utf8_prevCharSafeBody` lives in
`utf8.h`/`utf_impl.cpp`, which are not among the sources.  It decodes the code
point whose last byte sits at window index `i - 1` (the byte at `src - 1`;
the `c` argument of the C function is the caller's already-read copy of that
byte, the model reads it from the buffer), walking backward through at most
4 bytes of well-formed UTF-8.  The result is the decoded code point (`-1` for
ill-formed input) together with the updated index — the index of the first
byte of the consumed sequence; at least the last byte is consumed whenever
the window is nonempty. -/
def utf8_prevCharSafeBody (s : List Nat) (base i : Nat) : Int × Nat :=
  if i = 0 then
    (-1, 0)
  else
    let b0 := s.getD (base + i - 1) 0
    if b0 < 0x80 then
      ((b0 : Nat), i - 1)
    else if b0 < 0xc0 ∧ 2 ≤ i then
      let b1 := s.getD (base + i - 2) 0
      if 0xc2 ≤ b1 ∧ b1 ≤ 0xdf then
        (((b1 - 0xc0) * 64 + b0 % 64 : Nat), i - 2)
      else if 0x80 ≤ b1 ∧ b1 < 0xc0 ∧ 3 ≤ i then
        let b2 := s.getD (base + i - 3) 0
        if (0xe0 ≤ b2 ∧ b2 ≤ 0xef) ∧ (b2 = 0xe0 → 0xa0 ≤ b1) ∧ (b2 = 0xed → b1 ≤ 0x9f) then
          ((b2 % 16 * 4096 + b1 % 64 * 64 + b0 % 64 : Nat), i - 3)
        else if 0x80 ≤ b2 ∧ b2 < 0xc0 ∧ 4 ≤ i then
          let b3 := s.getD (base + i - 4) 0
          if (0xf0 ≤ b3 ∧ b3 ≤ 0xf4) ∧ (b3 = 0xf0 → 0x90 ≤ b2) ∧ (b3 = 0xf4 → b2 ≤ 0x8f) then
            ((b3 % 8 * 262144 + b2 % 64 * 4096 + b1 % 64 * 64 + b0 % 64 : Nat), i - 4)
          else
            (-1, i - 1)
        else
          (-1, i - 1)
      else
        (-1, i - 1)
    else
      (-1, i - 1)

/-- `utrie3_internalU8PrevIndex` (utrie3.cpp lines 335–362).  Pointers are
modelled as indices into `buf`.  Since the low three bits are disjoint from
the rest, `(idx << 3) | i` is the arithmetic `idx * 8 + i`, and `-16 | i`,
`-8 | i` (with `0 ≤ i < 8`) are `-16 + i` and `-8 + i`. -/
def utrie3_internalU8PrevIndex (t : UTrie3) (c : Int) (buf : List Nat)
    (start src : Nat) : Int :=
  -- support 64-bit pointers by avoiding cast of arbitrary difference
  let length := if src - start ≤ 7 then src - start else 7
  let base := src - length                      -- start = src - 7 when rebased
  let r := utf8_prevCharSafeBody buf base length
  let i := length - r.2                         -- number of bytes read backward from src
  if 0 ≤ r.1 then
    if r.1 ≤ 0xffff then
      ((indexFromBMP t.index r.1.toNat * 8 + i : Nat) : Int)
    else if (t.highStart : Int) ≤ r.1 then
      -16 + (i : Int)                           -- for highValue
    else
      ((indexFromSupp t.index r.1.toNat * 8 + i : Nat) : Int)
  else
    -8 + (i : Int)                              -- for errorValue

/-! ## Serialization codec

The header layout (struct `UTrie3Header`, 24 bytes) is modelled from the
spec §4.3; `utrie3_impl.h` is not among the sources.  The host is
little-endian, so multi-byte fields are encoded least-significant byte
first. -/

def encodeU16 (v : Nat) : List Nat := [v % 256, v / 256 % 256]

def encodeU32 (v : Nat) : List Nat :=
  [v % 256, v / 256 % 256, v / 65536 % 256, v / 16777216 % 256]

def encodeU16List : List Nat → List Nat
  | [] => []
  | x :: xs => encodeU16 x ++ encodeU16List xs

def encodeU32List : List Nat → List Nat
  | [] => []
  | x :: xs => encodeU32 x ++ encodeU32List xs

def readU16 (b : List Nat) (k : Nat) : Nat :=
  b.getD k 0 + b.getD (k + 1) 0 * 256

def readU32 (b : List Nat) (k : Nat) : Nat :=
  b.getD k 0 + b.getD (k + 1) 0 * 256 + b.getD (k + 2) 0 * 65536 +
    b.getD (k + 3) 0 * 16777216

def decodeU16List (b : List Nat) : Nat → List Nat
  | 0 => []
  | n + 1 => readU16 b 0 :: decodeU16List (b.drop 2) n

def decodeU32List (b : List Nat) : Nat → List Nat
  | 0 => []
  | n + 1 => readU32 b 0 :: decodeU32List (b.drop 4) n

/-- `sizeof(UTrie3Header)`: 4+4+2+2+2+2+4+4 = 24 bytes. -/
def UTrie3HeaderSize : Nat := 24

/-- The exact byte image `utrie3_serialize` writes (lines 392–411): header,
then the 16-bit index array, then the data array (16- or 32-bit).  For a
16-bit trie the two `memcpy`s copy `indexLength` entries from `trie->index`
and `dataLength` entries from `trie->data16 = trie->index + indexLength`. -/
def utrie3_serializeImage (t : UTrie3) : List Nat :=
  let valueBits : Nat := match t.data32 with | none => 0 | some _ => 1
  encodeU32 UTRIE3_SIG ++                                   -- header->signature, "Tri3"
  encodeU32 (t.dataNullOffset * 4096 + valueBits) ++        -- (dataNullOffset << 12) | valueBits
  encodeU16 t.indexLength ++
  encodeU16 (t.dataLength / 4) ++                           -- dataLength >> UTRIE3_INDEX_SHIFT
  encodeU16 t.index2NullOffset ++
  encodeU16 t.shiftedHighStart ++
  encodeU32 t.highValue ++
  encodeU32 t.errorValue ++
  (match t.data32 with
   | none =>
     encodeU16List (t.index.take t.indexLength) ++
       encodeU16List ((t.index.drop t.indexLength).take t.dataLength)
   | some d =>
     encodeU16List (t.index.take t.indexLength) ++ encodeU32List (d.take t.dataLength))

/-- The `length` computed by `utrie3_serialize` (lines 379–386). -/
def utrie3_serializedLength (t : UTrie3) : Nat :=
  UTrie3HeaderSize + t.indexLength * 2 +
    (match t.data32 with
     | none => t.dataLength * 2
     | some _ => t.dataLength * 4)

/-- `data == nullptr || (U_POINTER_MASK_LSB(data, 3) != 0)` for an optional
destination buffer modelled as (address, contents). -/
def ptrBadForWrite (dst : Option (Nat × List Nat)) : Bool :=
  match dst with
  | none => true
  | some (a, _) => a % 4 != 0

/-- `utrie3_serialize` (utrie3.cpp lines 364–413).  Returns the updated error
code, the returned `int32_t` (bytes written, or the required length on
`U_BUFFER_OVERFLOW_ERROR`), and the destination buffer after the call. -/
def utrie3_serialize (trie : Option UTrie3) (dst : Option (Nat × List Nat))
    (capacity : Int) (pErrorCode : UErrorCode) :
    UErrorCode × Int × Option (Nat × List Nat) :=
  if U_FAILURE pErrorCode then
    (pErrorCode, 0, dst)
  else
    match trie with
    | none => (.illegalArgument, 0, dst)
    | some t =>
      if capacity < 0 ∨ (0 < capacity ∧ ptrBadForWrite dst) then
        (.illegalArgument, 0, dst)
      else
        let length := utrie3_serializedLength t
        if capacity < (length : Int) then
          (.bufferOverflow, (length : Int), dst)
        else
          match dst with
          | some (a, bytes) =>
            (.zero, (length : Int), some (a, utrie3_serializeImage t ++ bytes.drop length))
          | none => (.zero, (length : Int), none)  -- excluded: capacity ≥ length > 0

/-- `utrie3_openFromSerialized` (utrie3.cpp lines 23–126).  `addr` is the
byte address of `data` (for the 4-byte-alignment check), `b` its contents,
`length` the declared length.  On success returns the trie and the actual
length (`*pActualLength`); allocation is assumed to succeed. -/
def utrie3_openFromSerialized (valueBits : Int) (addr : Nat) (b : List Nat)
    (length : Int) (pErrorCode : UErrorCode) : UErrorCode × Option (UTrie3 × Nat) :=
  if U_FAILURE pErrorCode then
    (pErrorCode, none)
  else if length ≤ 0 ∨ addr % 4 ≠ 0 ∨ valueBits < 0 ∨ 1 < valueBits then
    (.illegalArgument, none)
  else if length < (UTrie3HeaderSize : Int) then
    -- not enough data for a trie header
    (.invalidFormat, none)
  else if readU32 b 0 ≠ UTRIE3_SIG then
    -- check the signature
    (.invalidFormat, none)
  else
    let options := readU32 b 4
    if valueBits ≠ ((options % 256 : Nat) : Int) ∨ options / 256 % 16 ≠ 0 then
      -- value-width mismatch, or reserved bits (mask 0x0F00) set
      (.invalidFormat, none)
    else
      let indexLength := readU16 b 8
      let dataLength := readU16 b 10 * 4        -- shiftedDataLength << UTRIE3_INDEX_SHIFT
      let index2NullOffset := readU16 b 12
      let dataNullOffset := options / 4096      -- options >> 12
      let shiftedHighStart := readU16 b 14
      let highStart := shiftedHighStart * 16384 -- shiftedHighStart << UTRIE3_SHIFT_1
      let highValue := readU32 b 16
      let errorValue := readU32 b 20
      let actualLength := UTrie3HeaderSize + indexLength * 2 +
        (if valueBits = 0 then dataLength * 2 else dataLength * 4)
      if length < (actualLength : Int) then
        (.invalidFormat, none)                  -- not enough bytes
      else if valueBits = 0 then
        -- UTRIE3_16_VALUE_BITS: the data array aliases the index storage
        let index := decodeU16List (b.drop 24) (indexLength + dataLength)
        let initialValue :=
          if dataNullOffset < indexLength + dataLength then index.getD dataNullOffset 0
          else highValue
        (.zero, some (⟨index, none, indexLength, dataLength, index2NullOffset,
          dataNullOffset, highStart, shiftedHighStart, highValue, errorValue,
          initialValue⟩, actualLength))
      else
        -- UTRIE3_32_VALUE_BITS
        let index := decodeU16List (b.drop 24) indexLength
        let data := decodeU32List (b.drop (24 + indexLength * 2)) dataLength
        let initialValue :=
          if dataNullOffset < dataLength then data.getD dataNullOffset 0
          else highValue
        (.zero, some (⟨index, some data, indexLength, dataLength, index2NullOffset,
          dataNullOffset, highStart, shiftedHighStart, highValue, errorValue,
          initialValue⟩, actualLength))

/-- `utrie3_clone` (utrie3.cpp lines 128–167): deep-copies the index and data
arrays (`indexLength` and `dataLength` entries) into owned storage. -/
def utrie3_clone (other : Option UTrie3) (pErrorCode : UErrorCode) :
    UErrorCode × Option UTrie3 :=
  if U_FAILURE pErrorCode then
    (pErrorCode, none)
  else
    match other with
    | none => (.illegalArgument, none)
    | some t =>
      match t.data32 with
      | none =>
        (.zero, some { t with
          index := t.index.take t.indexLength ++ (t.index.drop t.indexLength).take t.dataLength })
      | some d =>
        (.zero, some { t with index := t.index.take t.indexLength, data32 := some (d.take t.dataLength) })

/-! ## Endian swap (`utrie3_swap`, lines 482–569)

The `UDataSwapper` is one of the spec's out-of-scope host integrations
("endianness description services"); it is modelled as an abstract record of
the four operations utrie3.cpp invokes on it. -/

structure UDataSwapper where
  readUInt32 : Nat → Nat
  readUInt16 : Nat → Nat
  swapArray16 : List Nat → List Nat
  swapArray32 : List Nat → List Nat

/-- `utrie3_swap` (utrie3.cpp lines 482–569).  Returns the updated error code,
the returned size, and the output buffer after the call. -/
def utrie3_swap (ds : Option UDataSwapper) (inData : Option (List Nat)) (length : Int)
    (outData : Option (List Nat)) (pErrorCode : UErrorCode) :
    UErrorCode × Int × Option (List Nat) :=
  if U_FAILURE pErrorCode then
    (pErrorCode, 0, outData)
  else if ds.isNone ∨ inData.isNone ∨ (0 ≤ length ∧ outData.isNone) then
    (.illegalArgument, 0, outData)
  else if 0 ≤ length ∧ length < (UTrie3HeaderSize : Int) then
    (.indexOutofbounds, 0, outData)
  else
    match ds, inData with
    | some ds, some inb =>
      let signature := ds.readUInt32 (readU32 inb 0)
      let options := ds.readUInt32 (readU32 inb 4)
      let indexLength := ds.readUInt16 (readU16 inb 8)
      let shiftedDataLength := ds.readUInt16 (readU16 inb 10)
      let valueBits := options % 256
      let dataLength := shiftedDataLength * 4
      if signature ≠ UTRIE3_SIG ∨ 1 < valueBits ∨ options / 256 % 16 ≠ 0 ∨
          indexLength < UTRIE3_INDEX_1_OFFSET ∨ dataLength < UTRIE3_DATA_START_OFFSET then
        (.invalidFormat, 0, outData)   -- not a UTrie
      else
        let size := UTrie3HeaderSize + indexLength * 2 +
          (if valueBits = 0 then dataLength * 2 else dataLength * 4)
        if length < 0 then
          (.zero, (size : Int), outData)       -- preflight: no writes
        else
          match outData with
          | some outb =>
            if length < (size : Int) then
              (.indexOutofbounds, 0, some outb)
            else
              -- swap the header: two u32, four u16, two u32
              let header := ds.swapArray32 (inb.take 8) ++
                ds.swapArray16 ((inb.drop 8).take 8) ++
                ds.swapArray32 ((inb.drop 16).take 8)
              -- swap the index and the data
              let body :=
                if valueBits = 0 then
                  ds.swapArray16 ((inb.drop 24).take ((indexLength + dataLength) * 2))
                else
                  ds.swapArray16 ((inb.drop 24).take (indexLength * 2)) ++
                    ds.swapArray32 ((inb.drop (24 + indexLength * 2)).take (dataLength * 4))
              (.zero, (size : Int), some (header ++ body ++ outb.drop size))
          | none => (.zero, (size : Int), none)  -- excluded above
    | _, _ => (.illegalArgument, 0, outData)     -- excluded above

/-- `utrie3_getVersion` (utrie3.cpp lines 423–449). -/
def utrie3_getVersion (data : Option (Nat × List Nat)) (length : Int)
    (anyEndianOk : Bool) : Nat :=
  match data with
  | none => 0
  | some (addr, b) =>
    if length < 16 ∨ addr % 4 ≠ 0 then 0
    else
      let signature := readU32 b 0
      if signature = UTRIE3_SIG then 3
      else if anyEndianOk ∧ signature = UTRIE3_OE_SIG then 3
      else if signature = UTRIE2_SIG then 2
      else if anyEndianOk ∧ signature = UTRIE2_OE_SIG then 2
      else if signature = UTRIE_SIG then 1
      else if anyEndianOk ∧ signature = UTRIE_OE_SIG then 1
      else 0

/-! ## Well-formed tries (§3.3 of the spec)

The invariants a frozen trie produced by the (out-of-scope) builder or by
`utrie3_openFromSerialized` satisfies: field bounds matching the serialized
widths, the geometry of §3.2/§3.3, linear ASCII data, in-range block
offsets, the null-block structure, and the high-range coverage
(invariant 7). -/

structure WellFormed (t : UTrie3) : Prop where
  /-- Invariant 1: `highStart` is `shiftedHighStart << UTRIE3_SHIFT_1`. -/
  highStart_eq : t.highStart = t.shiftedHighStart * 16384
  highStart_le : t.highStart ≤ 0x110000
  /-- Invariant 2: `dataLength` is a multiple of `UTRIE3_DATA_BLOCK_LENGTH` … -/
  dataLength_mod : t.dataLength % 32 = 0
  /-- … and fits the 16-bit `shiftedDataLength` header field. -/
  dataLength_lt : t.dataLength < 0x40000
  /-- The ASCII fast path reads `data[0..0x7f]` unconditionally. -/
  dataLength_ge : UTRIE3_DATA_START_OFFSET ≤ t.dataLength
  /-- Invariant 3: `indexLength ≥ UTRIE3_INDEX_1_OFFSET` (the full BMP index). -/
  indexLength_ge : UTRIE3_INDEX_1_OFFSET ≤ t.indexLength
  indexLength_lt : t.indexLength < 0x10000
  /-- The index storage holds the index array, plus the data array when the
  value width is 16 bits (the `data16` aliasing). -/
  index_len : t.index.length =
    t.indexLength + (match t.data32 with | none => t.dataLength | some _ => 0)
  data32_len : ∀ d, t.data32 = some d → d.length = t.dataLength
  index_lt : ∀ x ∈ t.index, x < 0x10000
  data32_lt : ∀ d, t.data32 = some d → ∀ x ∈ d, x < 0x100000000
  highValue_lt : t.highValue < 0x100000000
  errorValue_lt : t.errorValue < 0x100000000
  i2Null_lt : t.index2NullOffset < 0x10000
  dataNull_lt : t.dataNullOffset < 0x100000
  /-- The first 128 data entries are the literal ASCII values: the four BMP
  index entries covering ASCII point linearly at the start of the data. -/
  ascii_linear : ∀ p < 4, t.index.getD p 0 = t.dataStart + 32 * p
  /-- Every BMP index entry is an in-range (pre-shifted) data-block offset. -/
  bmp_bounds : ∀ p < 2048, t.index.getD p 0 + 32 ≤ t.dataEnd
  /-- Invariants 4 and 6: `dataNullOffset` is a valid data block filled with
  `initialValue`, or an out-of-range sentinel and `initialValue == highValue`. -/
  dataNull : (t.dataNullOffset + 32 ≤ t.dataEnd ∧
      ∀ j < 32, t.readData (t.dataNullOffset + j) = t.initialValue) ∨
    (t.dataEnd ≤ t.dataNullOffset ∧ t.initialValue = t.highValue)
  /-- Invariant 5: `index2NullOffset` is a valid supplementary index-2 block
  whose 512 entries all point (shifted) at the data null block, or an
  out-of-range sentinel and `initialValue == highValue`. -/
  i2Null : (2048 ≤ t.index2NullOffset ∧ t.index2NullOffset + 512 ≤ t.indexLength ∧
      (∀ j < 512, t.index.getD (t.index2NullOffset + j) 0 * 4 = t.dataNullOffset) ∧
      t.dataNullOffset + 32 ≤ t.dataEnd ∧
      (∀ j < 32, t.readData (t.dataNullOffset + j) = t.initialValue)) ∨
    (t.indexLength ≤ t.index2NullOffset ∧ t.initialValue = t.highValue)
  /-- Each supplementary index-1 entry below `highStart` names a valid
  supplementary index-2 block, whose entries are in-range shifted
  data-block offsets. -/
  supp : ∀ w, 4 ≤ w → w * 16384 < t.highStart →
    2048 ≤ t.index.getD (2044 + w) 0 ∧
    t.index.getD (2044 + w) 0 + 512 ≤ t.indexLength ∧
    ∀ j < 512, t.index.getD (t.index.getD (2044 + w) 0 + j) 0 * 4 + 32 ≤ t.dataEnd
  /-- Invariant 7: BMP code points at or above `highStart` (reachable through
  the BMP index, which always covers the whole BMP) map to `highValue`. -/
  high_covered : ∀ cp, t.highStart ≤ cp → cp < 0x10000 →
    t.readData (t.index.getD (cp / 32) 0 + cp % 32) = t.highValue

/-! ## Concrete example tries (witness inputs) -/

/-- Index storage of `demoTrie`: the 2048-entry BMP index (ASCII entries
linear, everything else pointing at the data block at offset 2048), followed
by the 128-entry 16-bit data array, all entries `7`. -/
def demoIndex : List Nat :=
  [2048, 2080, 2112, 2144] ++ List.replicate 2044 2048 ++ List.replicate 128 7

/-- A small well-formed 16-bit trie: every code point maps to `7`
(`initialValue = highValue = 7`), `highStart = 0x10000`, `errorValue = 9`,
data null block at (combined) offset 2048, no index-2 null block
(sentinel `0xffff`). -/
def demoTrie : UTrie3 :=
  ⟨demoIndex, none, 2048, 128, 0xffff, 2048, 0x10000, 4, 7, 9, 7⟩

/-- `demoTrie` with `highStart = 0x4000`: all BMP data entries equal
`highValue`, so invariant 7 holds although the BMP lookup path still reads
the arrays for code points in `[0x4000, 0xffff]`. -/
def trie2 : UTrie3 :=
  { demoTrie with highStart := 0x4000, shiftedHighStart := 1 }

/-- The 24-byte serialized image of the degenerate 16-bit trie with
`indexLength = dataLength = 0` and all scalar fields zero (accepted by
`utrie3_openFromSerialized`, which checks no lower bounds on the lengths). -/
def tinyImage : List Nat := [0x33, 0x69, 0x72, 0x54] ++ List.replicate 20 0

/-- The trie `utrie3_openFromSerialized` builds from `tinyImage`. -/
def tinyTrie : UTrie3 := ⟨[], none, 0, 0, 0, 0, 0, 0, 0, 0, 0⟩

/-! ## Abbreviations used by the `utrie3_getRange` correctness proof -/

/-- The data-block offset the range scan reads for offset-`j` entries of the
index-2 block `i2Block` (utrie3.cpp lines 280–283): the stored entry, shifted
by `UTRIE3_INDEX_SHIFT` exactly for supplementary index-2 blocks. -/
def UTrie3.windowBlock (t : UTrie3) (i2Block j : Nat) : Nat :=
  let e := t.index.getD (i2Block + j) 0
  if 2048 ≤ i2Block then e * 4 else e

/-- A data entry pushed through `maybeHandleValue`. -/
def transformedData (t : UTrie3) (f : UTrie3HandleValue) (di : Nat) : Nat :=
  maybeHandleValue (t.readData di) t.initialValue (nullValueOf t f) f

/-- The transformed value of a code point: `value_of(cp)` with the raw
`initialValue` normalized to the transformed `initialValue` (the claim's
"transformed value_of"). -/
def transformedValue (t : UTrie3) (f : UTrie3HandleValue) (cp : Nat) : Nat :=
  maybeHandleValue (utrie3_get t (cp : Int)) t.initialValue (nullValueOf t f) f

/-- The index-2 block `utrie3_getRange` uses for the 16384-code-point window
of `cp`: the synthetic linear-BMP value below `0x10000`, the index-1 entry
above. -/
def i2BlockOf (t : UTrie3) (cp : Nat) : Nat :=
  if cp ≤ 0xffff then cp / 32 / 512 * 512
  else t.index.getD (2044 + cp / 16384) 0

/-- `[start, c)` is one run of the transformed value `value`. -/
def rangeCovered (t : UTrie3) (f : UTrie3HandleValue) (start c value : Nat) : Prop :=
  ∀ cp, start ≤ cp → cp < c → transformedValue t f cp = value

/-- Loop invariant for `prevBlock`: once a whole aligned data block has been
consumed, `prevBlock` is a data block all of whose 32 entries transform to
the run value (so skipping a repeated block is sound). -/
def blockInv (t : UTrie3) (f : UTrie3HandleValue) (start c : Nat) (prevBlock : Int)
    (value : Nat) : Prop :=
  c % 32 = 0 → start + 32 ≤ c →
    ∃ pb : Nat, prevBlock = (pb : Int) ∧ ∀ j < 32, transformedData t f (pb + j) = value

/-- Loop invariant for `prevI2Block`: once a whole aligned 16384-code-point
window has been consumed, every entry read through `prevI2Block` transforms
to the run value (so skipping a repeated index-2 block is sound). -/
def i2Inv (t : UTrie3) (f : UTrie3HandleValue) (start c : Nat) (prevI2Block : Int)
    (value : Nat) : Prop :=
  c % 16384 = 0 → start + 16384 ≤ c →
    ∃ p2 : Nat, prevI2Block = (p2 : Int) ∧
      ∀ j < 16384, transformedData t f (t.windowBlock p2 (j / 32) + j % 32) = value

/-- The combined (`haveValue`, `value`, `*pValue`, `prevBlock`) state of the
range scan: either no value has been recorded yet (only at `c = start`), or
a recorded run value covering `[start, c)` with the `prevBlock` invariant. -/
def valueState (t : UTrie3) (f : UTrie3HandleValue) (start c : Nat) (prevBlock : Int)
    (v : Option Nat) : Prop :=
  (v = none ∧ c = start) ∨
    ∃ value, v = some value ∧ start < c ∧ rangeCovered t f start c value ∧
      blockInv t f start c prevBlock value

/-! # Theorems -/

/-! ## List and arithmetic helpers -/

theorem getD_replicate {a n i : Nat} :
    (List.replicate n a).getD i 0 = if i < n then a else 0 := by
  induction n generalizing i with
  | zero => simp
  | succ n ih =>
    cases i with
    | zero => simp [List.replicate_succ]
    | succ i =>
      rw [List.replicate_succ, List.getD_cons_succ, ih]
      simp [Nat.succ_lt_succ_iff]

theorem getD_drop (l : List Nat) (n m : Nat) :
    (l.drop n).getD m 0 = l.getD (n + m) 0 := by
  induction l generalizing n with
  | nil => simp
  | cons x xs ih =>
    cases n with
    | zero => simp
    | succ n =>
      rw [List.drop_succ_cons, ih, Nat.succ_add, List.getD_cons_succ]

/-! ## The demonstration tries are well-formed -/

theorem demoIndex_getD (p : Nat) :
    demoIndex.getD p 0 =
      if p < 4 then 2048 + 32 * p else if p < 2048 then 2048 else if p < 2176 then 7 else 0 := by
  match p with
  | 0 => rfl
  | 1 => rfl
  | 2 => rfl
  | 3 => rfl
  | (n + 4) =>
    unfold demoIndex
    have hlen1 : (([2048, 2080, 2112, 2144] : List Nat) ++ List.replicate 2044 2048).length = 2048 := by
      rw [List.length_append, List.length_replicate]
      rfl
    rcases Nat.lt_or_ge (n + 4) 2048 with h | h
    · rw [List.getD_append _ _ _ _ (by rw [hlen1]; omega)]
      rw [List.getD_append_right _ _ _ _ (show ([2048, 2080, 2112, 2144] : List Nat).length ≤ n + 4 by simp)]
      simp only [List.length_cons, List.length_nil]
      rw [show n + 4 - 4 = n from by omega, getD_replicate]
      split_ifs <;> omega
    · rw [List.getD_append_right _ _ _ _ (by rw [hlen1]; omega)]
      rw [hlen1, getD_replicate]
      split_ifs <;> omega

theorem demoIndex_length : demoIndex.length = 2176 := by
  unfold demoIndex
  rw [List.length_append, List.length_append, List.length_replicate, List.length_replicate]
  rfl

theorem demoIndex_mem_lt : ∀ x ∈ demoIndex, x < 0x10000 := by
  intro x hx
  simp only [demoIndex, List.mem_append, List.mem_cons, List.mem_replicate,
    List.not_mem_nil, or_false] at hx
  rcases hx with ((h | h | h | h) | ⟨-, h⟩) | ⟨-, h⟩ <;> omega

theorem demoTrie_wf : WellFormed demoTrie := by
  constructor
  · rfl
  · decide
  · decide
  · decide
  · decide
  · decide
  · decide
  · exact demoIndex_length
  · intro d h; cases h
  · exact demoIndex_mem_lt
  · intro d h; cases h
  · decide
  · decide
  · decide
  · decide
  · intro p hp; interval_cases p <;> rfl
  · intro p hp
    show demoIndex.getD p 0 + 32 ≤ demoTrie.dataEnd
    rw [demoIndex_getD]
    have : demoTrie.dataEnd = 2176 := rfl
    rw [this]; split_ifs <;> omega
  · refine Or.inl ⟨by decide, fun j hj => ?_⟩
    show demoIndex.getD (2048 + j) 0 = 7
    rw [demoIndex_getD]; split_ifs <;> omega
  · exact Or.inr ⟨by decide, rfl⟩
  · intro w hw hlt
    exfalso
    have : demoTrie.highStart = 0x10000 := rfl
    omega
  · intro cp h1 h2
    exfalso
    have : demoTrie.highStart = 0x10000 := rfl
    omega

/-! ## Point lookup: high range and out-of-range behaviour -/

theorem toUInt32_natCast (cp : Nat) (h : cp < 4294967296) : toUInt32 (cp : Int) = cp := by
  unfold toUInt32
  omega

/-- The ASCII fast path reads the same storage cell as `readData` at
`dataStart + k`. -/
theorem ascii_read_eq (t : UTrie3) (k : Nat) :
    (match t.data32 with
     | none => t.index.getD (t.indexLength + k) 0
     | some d => d.getD k 0) = t.readData (t.dataStart + k) := by
  unfold UTrie3.readData UTrie3.dataStart
  cases t.data32 <;> simp

/-- On a well-formed trie every code point at or above `highStart` looks up
`highValue`, on all three paths (ASCII, BMP, supplementary). -/
theorem get_high_aux (t : UTrie3) (hwf : WellFormed t) (cp : Nat)
    (h1 : t.highStart ≤ cp) (h2 : cp ≤ 0x10ffff) :
    utrie3_get t (cp : Int) = t.highValue := by
  have htu : toUInt32 (cp : Int) = cp := toUInt32_natCast cp (by omega)
  unfold utrie3_get
  rw [htu]
  by_cases hc7 : cp ≤ 0x7f
  · rw [if_pos hc7, ascii_read_eq]
    have hcov := hwf.high_covered cp h1 (by omega)
    have hlin := hwf.ascii_linear (cp / 32) (by omega)
    rw [hlin] at hcov
    have hdi : t.dataStart + 32 * (cp / 32) + cp % 32 = t.dataStart + cp := by omega
    rwa [hdi] at hcov
  · by_cases hcb : cp ≤ 0xffff
    · rw [if_neg hc7, if_pos hcb]
      exact hwf.high_covered cp h1 (by omega)
    · have hgt : ¬(0x10ffff < cp) := by omega
      have hhs : (t.highStart : Int) ≤ (cp : Int) := by exact_mod_cast h1
      rw [if_neg hc7, if_neg hcb, if_neg hgt, if_pos hhs]

theorem trie2_wf : WellFormed trie2 := by
  constructor
  · rfl
  · decide
  · decide
  · decide
  · decide
  · decide
  · decide
  · exact demoIndex_length
  · intro d h; cases h
  · exact demoIndex_mem_lt
  · intro d h; cases h
  · decide
  · decide
  · decide
  · decide
  · intro p hp; interval_cases p <;> rfl
  · intro p hp
    show demoIndex.getD p 0 + 32 ≤ trie2.dataEnd
    rw [demoIndex_getD]
    have : trie2.dataEnd = 2176 := rfl
    rw [this]; split_ifs <;> omega
  · refine Or.inl ⟨by decide, fun j hj => ?_⟩
    show demoIndex.getD (2048 + j) 0 = 7
    rw [demoIndex_getD]; split_ifs <;> omega
  · exact Or.inr ⟨by decide, rfl⟩
  · intro w hw hlt
    exfalso
    have : trie2.highStart = 0x4000 := rfl
    omega
  · intro cp h1 h2
    show trie2.readData (demoIndex.getD (cp / 32) 0 + cp % 32) = trie2.highValue
    have hhs : trie2.highStart = 0x4000 := rfl
    rw [hhs] at h1
    have hp : ¬(cp / 32 < 4) := by omega
    have hp2 : cp / 32 < 2048 := by omega
    rw [demoIndex_getD]
    simp only [hp, hp2, if_false, if_true]
    show demoIndex.getD (2048 + cp % 32) 0 = 7
    rw [demoIndex_getD]
    have h32 : cp % 32 < 32 := Nat.mod_lt _ (by omega)
    split_ifs <;> omega

/-- **C3**: `utrie3_get` is a total function of any 32-bit signed `c` (in the
embedding it is a Lean function, hence terminating with a defined result);
for every `c` outside `[0, 0x10FFFF]` it returns `trie->errorValue`:
negative `c` falls through the unsigned ASCII/BMP comparisons and hits the
`(uint32_t)c > 0x10ffff` branch. -/
theorem utrie3_get_outOfRange (t : UTrie3) (c : Int)
    (hlo : -2147483648 ≤ c) (hhi : c < 2147483648)
    (hout : c < 0 ∨ 0x10ffff < c) :
    utrie3_get t c = t.errorValue := by
  unfold utrie3_get
  rcases hout with h | h
  · have h1 : ¬(toUInt32 c ≤ 0x7f) := by unfold toUInt32; omega
    have h2 : ¬(toUInt32 c ≤ 0xffff) := by unfold toUInt32; omega
    have h3 : 0x10ffff < toUInt32 c := by unfold toUInt32; omega
    rw [if_neg h1, if_neg h2, if_pos h3]
  · have h1 : ¬(toUInt32 c ≤ 0x7f) := by unfold toUInt32; omega
    have h2 : ¬(toUInt32 c ≤ 0xffff) := by unfold toUInt32; omega
    have h3 : 0x10ffff < toUInt32 c := by unfold toUInt32; omega
    rw [if_neg h1, if_neg h2, if_pos h3]

/-- Witness for C3 at `c = -1` on the concrete `demoTrie`
(`errorValue = 9`). -/
theorem utrie3_get_outOfRange_witness :
    ((-2147483648 : Int) ≤ -1 ∧ (-1 : Int) < 2147483648 ∧
      ((-1 : Int) < 0 ∨ (0x10ffff : Int) < -1)) ∧
    utrie3_get demoTrie (-1) = demoTrie.errorValue :=
  ⟨⟨by decide, by decide, Or.inl (by decide)⟩,
   utrie3_get_outOfRange demoTrie (-1) (by decide) (by decide) (Or.inl (by decide))⟩

/-- **C4**: on a well-formed trie, every code point in
`[highStart, 0x10FFFF]` looks up `highValue` — including code points that
take the ASCII or BMP path because `highStart` is small (invariant 7 and the
ASCII-linearity of the layout make those array cells hold `highValue`). -/
theorem utrie3_get_highRange (t : UTrie3) (hwf : WellFormed t) (cp : Nat)
    (h1 : t.highStart ≤ cp) (h2 : cp ≤ 0x10ffff) :
    utrie3_get t (cp : Int) = t.highValue :=
  get_high_aux t hwf cp h1 h2

/-- Witness for C4 on `trie2` (`highStart = 0x4000`) at `cp = 0x4100`, a BMP
code point at or above `highStart`, hence exercising the BMP lookup path. -/
theorem utrie3_get_highRange_witness :
    WellFormed trie2 ∧ trie2.highStart ≤ 0x4100 ∧ (0x4100 : Nat) ≤ 0x10ffff ∧
    utrie3_get trie2 ((0x4100 : Nat) : Int) = trie2.highValue :=
  ⟨trie2_wf, by decide, by decide,
   utrie3_get_highRange trie2 trie2_wf 0x4100 (by decide) (by decide)⟩

/-! ## Version probe (C9) -/

/-- **C9**: `utrie3_getVersion` returns 3/2/1 for the Trie3/Trie2/Trie1
signatures, matches the byte-reversed signatures only when `anyEndianOk`,
returns 0 for anything else, and returns 0 for NULL, shorter-than-16-byte, or
non-4-byte-aligned buffers. -/
theorem utrie3_getVersion_spec :
    (∀ (length : Int) (any : Bool), utrie3_getVersion none length any = 0) ∧
    (∀ (addr : Nat) (b : List Nat) (length : Int) (any : Bool),
      length < 16 ∨ addr % 4 ≠ 0 → utrie3_getVersion (some (addr, b)) length any = 0) ∧
    (∀ (addr : Nat) (b : List Nat) (length : Int), 16 ≤ length → addr % 4 = 0 →
      (∀ any, readU32 b 0 = UTRIE3_SIG → utrie3_getVersion (some (addr, b)) length any = 3) ∧
      (∀ any, readU32 b 0 = UTRIE2_SIG → utrie3_getVersion (some (addr, b)) length any = 2) ∧
      (∀ any, readU32 b 0 = UTRIE_SIG → utrie3_getVersion (some (addr, b)) length any = 1) ∧
      (readU32 b 0 = UTRIE3_OE_SIG → utrie3_getVersion (some (addr, b)) length true = 3) ∧
      (readU32 b 0 = UTRIE2_OE_SIG → utrie3_getVersion (some (addr, b)) length true = 2) ∧
      (readU32 b 0 = UTRIE_OE_SIG → utrie3_getVersion (some (addr, b)) length true = 1) ∧
      (readU32 b 0 ≠ UTRIE3_SIG → readU32 b 0 ≠ UTRIE2_SIG → readU32 b 0 ≠ UTRIE_SIG →
        utrie3_getVersion (some (addr, b)) length false = 0) ∧
      (readU32 b 0 ≠ UTRIE3_SIG → readU32 b 0 ≠ UTRIE2_SIG → readU32 b 0 ≠ UTRIE_SIG →
        readU32 b 0 ≠ UTRIE3_OE_SIG → readU32 b 0 ≠ UTRIE2_OE_SIG → readU32 b 0 ≠ UTRIE_OE_SIG →
        ∀ any, utrie3_getVersion (some (addr, b)) length any = 0)) := by
  refine ⟨fun length any => rfl, fun addr b length any h => ?_, fun addr b length h16 hal => ?_⟩
  · simp only [utrie3_getVersion]
    rw [if_pos (by omega)]
  · have hguard : ¬((length : Int) < 16 ∨ addr % 4 ≠ 0) := by omega
    refine ⟨fun any h => ?_, fun any h => ?_, fun any h => ?_, fun h => ?_, fun h => ?_,
      fun h => ?_, fun h1 h2 h3 => ?_, fun h1 h2 h3 h4 h5 h6 any => ?_⟩
    · simp only [utrie3_getVersion]; rw [if_neg hguard, h]; cases any <;> decide
    · simp only [utrie3_getVersion]; rw [if_neg hguard, h]; cases any <;> decide
    · simp only [utrie3_getVersion]; rw [if_neg hguard, h]; cases any <;> decide
    · simp only [utrie3_getVersion]; rw [if_neg hguard, h]; decide
    · simp only [utrie3_getVersion]; rw [if_neg hguard, h]; decide
    · simp only [utrie3_getVersion]; rw [if_neg hguard, h]; decide
    · simp only [utrie3_getVersion]; rw [if_neg hguard]; simp [h1, h2, h3]
    · simp only [utrie3_getVersion]; rw [if_neg hguard]; simp [h1, h2, h3, h4, h5, h6]

/-- Witness for C9: the Trie3 signature at the head of `tinyImage` is
classified as version 3 without endian tolerance. -/
theorem utrie3_getVersion_spec_witness :
    (16 ≤ (24 : Int) ∧ 0 % 4 = 0 ∧ readU32 tinyImage 0 = UTRIE3_SIG) ∧
    utrie3_getVersion (some (0, tinyImage)) 24 false = 3 :=
  ⟨⟨by decide, by decide, by decide⟩,
   (utrie3_getVersion_spec.2.2 0 tinyImage 24 (by decide) (by decide)).1 false (by decide)⟩

/-! ## Sticky error channel (C7) -/

/-- **C7**: every entry point taking a `UErrorCode` channel returns
immediately — with `0`/`NULL` results and untouched outputs — when the code
is already a failure on entry. -/
theorem sticky_failure (ec : UErrorCode) (h : U_FAILURE ec = true) :
    (∀ (valueBits : Int) (addr : Nat) (b : List Nat) (length : Int),
      utrie3_openFromSerialized valueBits addr b length ec = (ec, none)) ∧
    (∀ other, utrie3_clone other ec = (ec, none)) ∧
    (∀ trie dst (capacity : Int), utrie3_serialize trie dst capacity ec = (ec, 0, dst)) ∧
    (∀ ds inData (length : Int) outData,
      utrie3_swap ds inData length outData ec = (ec, 0, outData)) := by
  refine ⟨fun _ _ _ _ => ?_, fun _ => ?_, fun _ _ _ => ?_, fun _ _ _ _ => ?_⟩ <;>
    simp only [utrie3_openFromSerialized, utrie3_clone, utrie3_serialize, utrie3_swap, h,
      if_true]

/-- Witness for C7 with `U_MEMORY_ALLOCATION_ERROR` on entry, at concrete
arguments for all four entry points. -/
theorem sticky_failure_witness :
    U_FAILURE .memoryAllocation = true ∧
    utrie3_openFromSerialized 0 0 tinyImage 24 .memoryAllocation = (.memoryAllocation, none) ∧
    utrie3_clone (some demoTrie) .memoryAllocation = (.memoryAllocation, none) ∧
    utrie3_serialize (some demoTrie) (some (0, [])) 400 .memoryAllocation =
      (.memoryAllocation, 0, some (0, [])) ∧
    utrie3_swap none none 0 none .memoryAllocation = (.memoryAllocation, 0, none) :=
  ⟨by decide,
   (sticky_failure .memoryAllocation (by decide)).1 0 0 tinyImage 24,
   (sticky_failure .memoryAllocation (by decide)).2.1 (some demoTrie),
   (sticky_failure .memoryAllocation (by decide)).2.2.1 (some demoTrie) (some (0, [])) 400,
   (sticky_failure .memoryAllocation (by decide)).2.2.2 none none 0 none⟩

/-! ## Serialization: length computation and the writer (C6, C10) -/

theorem encodeU16List_length (l : List Nat) : (encodeU16List l).length = 2 * l.length := by
  induction l with
  | nil => rfl
  | cons x xs ih => simp [encodeU16List, encodeU16, ih]; omega

theorem encodeU32List_length (l : List Nat) : (encodeU32List l).length = 4 * l.length := by
  induction l with
  | nil => rfl
  | cons x xs ih => simp [encodeU32List, encodeU32, ih]; omega

theorem serializeImage_length (t : UTrie3) (hwf : WellFormed t) :
    (utrie3_serializeImage t).length = utrie3_serializedLength t := by
  rcases hd : t.data32 with _ | d
  · have hlen : t.index.length = t.indexLength + t.dataLength := by
      have h := hwf.index_len
      rw [hd] at h
      simpa using h
    simp only [utrie3_serializeImage, utrie3_serializedLength, UTrie3HeaderSize, hd,
      List.length_append, encodeU16List_length, encodeU32List_length, List.length_take,
      List.length_drop, encodeU32, encodeU16, List.length_cons, List.length_nil]
    omega
  · have hlen : t.index.length = t.indexLength := by
      have h := hwf.index_len
      rw [hd] at h
      simpa using h
    have hdlen := hwf.data32_len d hd
    simp only [utrie3_serializeImage, utrie3_serializedLength, UTrie3HeaderSize, hd,
      List.length_append, encodeU16List_length, encodeU32List_length, List.length_take,
      List.length_drop, encodeU32, encodeU16, List.length_cons, List.length_nil]
    omega

/-- **C6**: `utrie3_serialize` computes the exact image length (24-byte
header, 2 bytes per index entry, 2 or 4 bytes per data entry); with a smaller
capacity it fails with `U_BUFFER_OVERFLOW_ERROR` returning that length and
leaves the destination untouched; otherwise it writes exactly the image
(header, index array, data array) and returns the length. -/
theorem utrie3_serialize_spec (t : UTrie3) (hwf : WellFormed t) (a : Nat) (dest : List Nat)
    (capacity : Int) (hal : a % 4 = 0) (hcap : 0 ≤ capacity) :
    (utrie3_serializedLength t =
      24 + 2 * t.indexLength +
        (match t.data32 with | none => 2 | some _ => 4) * t.dataLength) ∧
    (utrie3_serializeImage t).length = utrie3_serializedLength t ∧
    (capacity < (utrie3_serializedLength t : Int) →
      utrie3_serialize (some t) (some (a, dest)) capacity .zero =
        (.bufferOverflow, (utrie3_serializedLength t : Int), some (a, dest))) ∧
    ((utrie3_serializedLength t : Int) ≤ capacity →
      utrie3_serialize (some t) (some (a, dest)) capacity .zero =
        (.zero, (utrie3_serializedLength t : Int),
          some (a, utrie3_serializeImage t ++ dest.drop (utrie3_serializedLength t)))) := by
  have hbad : ¬(capacity < 0 ∨ 0 < capacity ∧ ptrBadForWrite (some (a, dest)) = true) := by
    simp only [ptrBadForWrite, bne_iff_ne, ne_eq]
    omega
  refine ⟨?_, serializeImage_length t hwf, fun hover => ?_, fun hok => ?_⟩
  · rcases hd : t.data32 with _ | d <;>
      simp only [utrie3_serializedLength, UTrie3HeaderSize, hd] <;> omega
  · simp only [utrie3_serialize, U_FAILURE]
    rw [if_neg (by decide), if_neg hbad, if_pos hover]
  · simp only [utrie3_serialize, U_FAILURE]
    rw [if_neg (by decide), if_neg hbad, if_neg (by omega)]

/-- Witness for C6: serializing `demoTrie` into an exactly-sized buffer
succeeds and writes the image. -/
theorem utrie3_serialize_spec_witness :
    WellFormed demoTrie ∧ 0 % 4 = 0 ∧ (0 : Int) ≤ 4376 ∧
    ((utrie3_serializedLength demoTrie : Int) ≤ 4376 →
      utrie3_serialize (some demoTrie) (some (0, List.replicate 4376 0)) 4376 .zero =
        (.zero, (utrie3_serializedLength demoTrie : Int),
          some (0, utrie3_serializeImage demoTrie ++
            (List.replicate 4376 0).drop (utrie3_serializedLength demoTrie)))) :=
  ⟨demoTrie_wf, by decide, by decide,
   (utrie3_serialize_spec demoTrie demoTrie_wf 0 (List.replicate 4376 0) 4376
     (by decide) (by decide)).2.2.2⟩

/-- **C10**: when `utrie3_serialize` reports `U_BUFFER_OVERFLOW_ERROR` (called
with a fresh error code), the destination buffer is completely unmodified —
the capacity check precedes every write — and the required length is
returned. -/
theorem utrie3_serialize_overflow_unmodified (trie : Option UTrie3)
    (dst : Option (Nat × List Nat)) (capacity : Int)
    (h : (utrie3_serialize trie dst capacity .zero).1 = .bufferOverflow) :
    (utrie3_serialize trie dst capacity .zero).2.2 = dst ∧
    (∀ t, trie = some t →
      (utrie3_serialize trie dst capacity .zero).2.1 = (utrie3_serializedLength t : Int)) := by
  revert h
  simp only [utrie3_serialize]
  rw [if_neg (show ¬(U_FAILURE UErrorCode.zero = true) from by decide)]
  match trie with
  | none => intro h; simp at h
  | some t =>
    dsimp only
    by_cases hbad : capacity < 0 ∨ 0 < capacity ∧ ptrBadForWrite dst = true
    · rw [if_pos hbad]; intro h; simp at h
    · rw [if_neg hbad]
      by_cases hover : capacity < (utrie3_serializedLength t : Int)
      · rw [if_pos hover]
        intro h
        refine ⟨rfl, fun t' ht' => ?_⟩
        injection ht' with hh
        subst hh
        rfl
      · rw [if_neg hover]
        rcases dst with _ | ⟨a, bytes⟩ <;> (intro h; simp at h)

/-- Witness for C10: a zero-capacity call on `demoTrie` overflows and leaves
the (empty) destination untouched. -/
theorem utrie3_serialize_overflow_unmodified_witness :
    (utrie3_serialize (some demoTrie) (some (5, [])) 0 .zero).1 = .bufferOverflow ∧
    (utrie3_serialize (some demoTrie) (some (5, [])) 0 .zero).2.2 = some (5, []) :=
  ⟨by decide,
   (utrie3_serialize_overflow_unmodified (some demoTrie) (some (5, [])) 0 (by decide)).1⟩

/-! ## Deserialization error taxonomy (C5) -/

/-- **C5**: `utrie3_openFromSerialized` (with a fresh error code) fails with
`U_ILLEGAL_ARGUMENT_ERROR` exactly for `length <= 0`, a non-4-byte-aligned
data pointer, or an out-of-range value-width tag; it fails with
`U_INVALID_FORMAT_ERROR` exactly when those pass but the length is smaller
than the header, the signature is wrong, the value-width tag disagrees with
the options word, the reserved bits (mask 0x0F00) are nonzero, or the length
cannot hold the declared arrays; it succeeds otherwise, and every failure
produces no trie. -/
theorem utrie3_openFromSerialized_errors (vb : Int) (addr : Nat) (b : List Nat)
    (length : Int) :
    ((utrie3_openFromSerialized vb addr b length .zero).1 = .illegalArgument ↔
      length ≤ 0 ∨ addr % 4 ≠ 0 ∨ vb < 0 ∨ 1 < vb) ∧
    ((utrie3_openFromSerialized vb addr b length .zero).1 = .invalidFormat ↔
      ¬(length ≤ 0 ∨ addr % 4 ≠ 0 ∨ vb < 0 ∨ 1 < vb) ∧
      (length < 24 ∨ readU32 b 0 ≠ UTRIE3_SIG ∨
        vb ≠ ((readU32 b 4 % 256 : Nat) : Int) ∨ readU32 b 4 / 256 % 16 ≠ 0 ∨
        length < ((24 + readU16 b 8 * 2 +
          (if vb = 0 then (readU16 b 10 * 4) * 2 else (readU16 b 10 * 4) * 4) : Nat) : Int))) ∧
    ((utrie3_openFromSerialized vb addr b length .zero).1 = .zero ↔
      ¬(length ≤ 0 ∨ addr % 4 ≠ 0 ∨ vb < 0 ∨ 1 < vb) ∧
      ¬(length < 24 ∨ readU32 b 0 ≠ UTRIE3_SIG ∨
        vb ≠ ((readU32 b 4 % 256 : Nat) : Int) ∨ readU32 b 4 / 256 % 16 ≠ 0 ∨
        length < ((24 + readU16 b 8 * 2 +
          (if vb = 0 then (readU16 b 10 * 4) * 2 else (readU16 b 10 * 4) * 4) : Nat) : Int))) ∧
    ((utrie3_openFromSerialized vb addr b length .zero).1 ≠ .zero →
      (utrie3_openFromSerialized vb addr b length .zero).2 = none) ∧
    ((utrie3_openFromSerialized vb addr b length .zero).1 = .zero →
      ∃ tr, (utrie3_openFromSerialized vb addr b length .zero).2 = some tr) := by
  simp only [utrie3_openFromSerialized, UTrie3HeaderSize]
  rw [if_neg (show ¬(U_FAILURE UErrorCode.zero = true) from by decide)]
  by_cases h1 : length ≤ 0 ∨ addr % 4 ≠ 0 ∨ vb < 0 ∨ 1 < vb
  · rw [if_pos h1]
    simp [h1]
  · rw [if_neg h1]
    by_cases h2 : length < ((24 : Nat) : Int)
    · rw [if_pos h2]
      simp [h1, h2] <;> omega
    · rw [if_neg h2]
      by_cases h3 : readU32 b 0 ≠ UTRIE3_SIG
      · rw [if_pos h3]
        simp [h1, h2, h3] <;> omega
      · rw [if_neg h3]
        by_cases h4 : vb ≠ ((readU32 b 4 % 256 : Nat) : Int) ∨ readU32 b 4 / 256 % 16 ≠ 0
        · rw [if_pos h4]
          simp only [not_or] at h3
          simp [h1, h2, h3, h4] <;> omega
        · rw [if_neg h4]
          by_cases h5 : length < ((24 + readU16 b 8 * 2 +
              (if vb = 0 then (readU16 b 10 * 4) * 2 else (readU16 b 10 * 4) * 4) : Nat) : Int)
          · rw [if_pos h5]
            by_cases hvb : vb = 0 <;> simp [hvb] at h5 <;>
              simp [h1, h2, h3, h4, h5, hvb] <;> omega
          · rw [if_neg h5]
            by_cases hvb : vb = 0 <;> simp [hvb] at h5 <;>
              simp [h1, h2, h3, h4, h5, hvb] <;> omega

/-- Witness for C5: a misaligned pointer is refused as an illegal argument, a
23-byte buffer as an invalid format, and the intact 24-byte `tinyImage` is
accepted. -/
theorem utrie3_openFromSerialized_errors_witness :
    (utrie3_openFromSerialized 0 2 tinyImage 24 .zero).1 = .illegalArgument ∧
    (utrie3_openFromSerialized 0 0 tinyImage 23 .zero).1 = .invalidFormat ∧
    (utrie3_openFromSerialized 0 0 tinyImage 24 .zero).1 = .zero :=
  ⟨(utrie3_openFromSerialized_errors 0 2 tinyImage 24).1.mpr (by decide),
   (utrie3_openFromSerialized_errors 0 0 tinyImage 23).2.1.mpr ⟨by decide, by decide⟩,
   (utrie3_openFromSerialized_errors 0 0 tinyImage 24).2.2.1.mpr ⟨by decide, by decide⟩⟩

/-! ## Backward UTF-8 helper (C8) -/

theorem emod8_add_mul (k n : Int) (h0 : 0 ≤ k) (h8 : k < 8) :
    (8 * n + k).emod 8 = k := by
  show (8 * n + k) % 8 = k
  rw [show (8 : Int) * n + k = k + 8 * n from by ring, Int.add_mul_emod_self_left,
    Int.emod_eq_of_lt h0 h8]

/-- The modelled backward decoder consumes between 1 and 4 bytes whenever at
least one byte precedes the cursor. -/
theorem utf8_prev_consumed (s : List Nat) (base i : Nat) (hi : 1 ≤ i) :
    (utf8_prevCharSafeBody s base i).2 < i ∧ i - (utf8_prevCharSafeBody s base i).2 ≤ 4 := by
  unfold utf8_prevCharSafeBody
  rw [if_neg (by omega)]
  dsimp only
  split_ifs <;> simp <;> omega

/-- **C8 (amended)**: the packed result of `utrie3_internalU8PrevIndex` is
`(dataIndex << 3) | bytesConsumed` with `dataIndex ≥ 0` whenever the decoded
code point is a BMP code point or below `highStart`; `-16 | bytesConsumed`
when it is *supplementary* and at or above `highStart`; `-8 | bytesConsumed`
on ill-formed UTF-8; and for every call with `start < src` the low three
bits `bytesConsumed` lie in `[1, 7]`. -/
theorem utrie3_internalU8PrevIndex_spec (t : UTrie3) (c : Int) (buf : List Nat)
    (start src length : Nat) (cp : Int) (i2 : Nat)
    (hlen : length = if src - start ≤ 7 then src - start else 7)
    (hdec : utf8_prevCharSafeBody buf (src - length) length = (cp, i2))
    (h : start < src) :
    1 ≤ length - i2 ∧ length - i2 ≤ 7 ∧
    (cp < 0 → utrie3_internalU8PrevIndex t c buf start src =
      -8 + ((length - i2 : Nat) : Int)) ∧
    (0 ≤ cp → cp ≤ 0xffff →
      utrie3_internalU8PrevIndex t c buf start src =
        ((indexFromBMP t.index cp.toNat * 8 + (length - i2) : Nat) : Int)) ∧
    (0 ≤ cp → 0xffff < cp → (t.highStart : Int) ≤ cp →
      utrie3_internalU8PrevIndex t c buf start src = -16 + ((length - i2 : Nat) : Int)) ∧
    (0 ≤ cp → 0xffff < cp → cp < (t.highStart : Int) →
      utrie3_internalU8PrevIndex t c buf start src =
        ((indexFromSupp t.index cp.toNat * 8 + (length - i2) : Nat) : Int)) ∧
    (utrie3_internalU8PrevIndex t c buf start src).emod 8 = ((length - i2 : Nat) : Int) := by
  have hlen1 : 1 ≤ length := by rw [hlen]; split <;> omega
  have hlen7 : length ≤ 7 := by rw [hlen]; split <;> omega
  have hcons := utf8_prev_consumed buf (src - length) length hlen1
  rw [hdec] at hcons
  have hk1 : 1 ≤ length - i2 := by omega
  have hk7 : length - i2 ≤ 7 := by omega
  set k := length - i2 with hkdef
  have hbody : utrie3_internalU8PrevIndex t c buf start src =
      (if 0 ≤ cp then
        if cp ≤ 0xffff then ((indexFromBMP t.index cp.toNat * 8 + (length - i2) : Nat) : Int)
        else if (t.highStart : Int) ≤ cp then -16 + ((length - i2 : Nat) : Int)
        else ((indexFromSupp t.index cp.toNat * 8 + (length - i2) : Nat) : Int)
      else -8 + ((length - i2 : Nat) : Int)) := by
    simp only [utrie3_internalU8PrevIndex]
    rw [← hlen, hdec]
  refine ⟨hk1, hk7, fun hneg => ?_, fun hpos hbmp => ?_, fun hpos hsupp hhs => ?_,
    fun hpos hsupp hlt => ?_, ?_⟩
  · rw [hbody, if_neg (by omega)]
  · rw [hbody, if_pos hpos, if_pos hbmp]
  · rw [hbody, if_pos hpos, if_neg (by omega), if_pos hhs]
  · rw [hbody, if_pos hpos, if_neg (by omega), if_neg (by omega)]
  · have hc0 : (0 : Int) ≤ ((k : Nat) : Int) := by omega
    have hc8 : ((k : Nat) : Int) < 8 := by omega
    by_cases hpos : 0 ≤ cp
    · by_cases hbmp : cp ≤ 0xffff
      · rw [hbody, if_pos hpos, if_pos hbmp]
        have h8 : ((indexFromBMP t.index cp.toNat * 8 + k : Nat) : Int) =
            8 * (indexFromBMP t.index cp.toNat : Int) + ((k : Nat) : Int) := by
          push_cast
          ring
        rw [h8]
        exact emod8_add_mul _ _ hc0 hc8
      · by_cases hhs : (t.highStart : Int) ≤ cp
        · rw [hbody, if_pos hpos, if_neg hbmp, if_pos hhs]
          rw [show (-16 : Int) + ((k : Nat) : Int) = 8 * (-2) + ((k : Nat) : Int) from by ring]
          exact emod8_add_mul _ _ hc0 hc8
        · rw [hbody, if_pos hpos, if_neg hbmp, if_neg hhs]
          have h8 : ((indexFromSupp t.index cp.toNat * 8 + k : Nat) : Int) =
              8 * (indexFromSupp t.index cp.toNat : Int) + ((k : Nat) : Int) := by
            push_cast
            ring
          rw [h8]
          exact emod8_add_mul _ _ hc0 hc8
    · rw [hbody, if_neg hpos]
      rw [show (-8 : Int) + ((k : Nat) : Int) = 8 * (-1) + ((k : Nat) : Int) from by ring]
      exact emod8_add_mul _ _ hc0 hc8

set_option maxRecDepth 10000 in
/-- Witness for C8 (amended): a two-byte backward decode (`0xC3 0xA9` = U+00E9)
at the end of a three-byte buffer on `demoTrie`. -/
theorem utrie3_internalU8PrevIndex_spec_witness :
    ((3 : Nat) = if 3 - 0 ≤ 7 then 3 - 0 else 7) ∧
    utf8_prevCharSafeBody [0x41, 0xc3, 0xa9] (3 - 3) 3 = (0xe9, 1) ∧
    (0 : Nat) < 3 ∧
    (1 ≤ 3 - 1 ∧ 3 - 1 ≤ 7 ∧
      ((0xe9 : Int) < 0 → utrie3_internalU8PrevIndex demoTrie 0 [0x41, 0xc3, 0xa9] 0 3 =
        -8 + ((3 - 1 : Nat) : Int)) ∧
      ((0 : Int) ≤ 0xe9 → (0xe9 : Int) ≤ 0xffff →
        utrie3_internalU8PrevIndex demoTrie 0 [0x41, 0xc3, 0xa9] 0 3 =
          ((indexFromBMP demoTrie.index (0xe9 : Int).toNat * 8 + (3 - 1) : Nat) : Int)) ∧
      ((0 : Int) ≤ 0xe9 → (0xffff : Int) < 0xe9 → (demoTrie.highStart : Int) ≤ 0xe9 →
        utrie3_internalU8PrevIndex demoTrie 0 [0x41, 0xc3, 0xa9] 0 3 =
          -16 + ((3 - 1 : Nat) : Int)) ∧
      ((0 : Int) ≤ 0xe9 → (0xffff : Int) < 0xe9 → (0xe9 : Int) < (demoTrie.highStart : Int) →
        utrie3_internalU8PrevIndex demoTrie 0 [0x41, 0xc3, 0xa9] 0 3 =
          ((indexFromSupp demoTrie.index (0xe9 : Int).toNat * 8 + (3 - 1) : Nat) : Int)) ∧
      (utrie3_internalU8PrevIndex demoTrie 0 [0x41, 0xc3, 0xa9] 0 3).emod 8 =
        ((3 - 1 : Nat) : Int)) :=
  ⟨by decide, by decide, by decide,
   utrie3_internalU8PrevIndex_spec demoTrie 0 [0x41, 0xc3, 0xa9] 0 3 3 0xe9 1
     (by decide) (by decide) (by decide)⟩

set_option maxRecDepth 100000 in
/-- Counterexample to C8 as stated: on the well-formed `trie2`
(`highStart = 0x4000`), backward-decoding `E4 80 80` (U+4000, a BMP code
point at `highStart`) returns the non-negative packed dataIndex form
`2048 * 8 + 3 = 16387`, not the `-16 | bytesConsumed` (= `-13`) that the
claim requires for every decoded code point at or above `highStart`. -/
theorem utrie3_internalU8PrevIndex_counterexample :
    WellFormed trie2 ∧
    utf8_prevCharSafeBody [0xe4, 0x80, 0x80] 0 3 = (0x4000, 0) ∧
    trie2.highStart ≤ 0x4000 ∧
    utrie3_internalU8PrevIndex trie2 0 [0xe4, 0x80, 0x80] 0 3 = 16387 ∧
    0 ≤ utrie3_internalU8PrevIndex trie2 0 [0xe4, 0x80, 0x80] 0 3 :=
  ⟨trie2_wf, by decide, by decide, by decide, by decide⟩

/-! ## Byte-codec lemmas for the serialization round-trip (C2) -/

theorem readU16_drop (b : List Nat) (n : Nat) : readU16 b n = readU16 (b.drop n) 0 := by
  simp [readU16, getD_drop]

theorem readU32_drop (b : List Nat) (n : Nat) : readU32 b n = readU32 (b.drop n) 0 := by
  simp [readU32, getD_drop]

theorem readU16_encode (v : Nat) (rest : List Nat) (h : v < 65536) :
    readU16 (encodeU16 v ++ rest) 0 = v := by
  simp [readU16, encodeU16]
  omega

theorem readU32_encode (v : Nat) (rest : List Nat) (h : v < 4294967296) :
    readU32 (encodeU32 v ++ rest) 0 = v := by
  simp [readU32, encodeU32]
  omega

theorem drop_encodeU16 (v : Nat) (rest : List Nat) : (encodeU16 v ++ rest).drop 2 = rest := by
  simp [encodeU16]

theorem drop_encodeU32 (v : Nat) (rest : List Nat) : (encodeU32 v ++ rest).drop 4 = rest := by
  simp [encodeU32]

theorem decodeU16List_length (n : Nat) : ∀ b : List Nat, (decodeU16List b n).length = n := by
  induction n with
  | zero => intro b; rfl
  | succ n ih => intro b; simp [decodeU16List, ih]

theorem decodeU32List_length (n : Nat) : ∀ b : List Nat, (decodeU32List b n).length = n := by
  induction n with
  | zero => intro b; rfl
  | succ n ih => intro b; simp [decodeU32List, ih]

theorem decode_encodeU16List (l : List Nat) (rest : List Nat) (h : ∀ x ∈ l, x < 65536) :
    decodeU16List (encodeU16List l ++ rest) l.length = l := by
  induction l with
  | nil => rfl
  | cons x xs ih =>
    simp only [encodeU16List, List.length_cons, List.append_assoc]
    simp only [decodeU16List]
    rw [readU16_encode x _ (h x (by simp)), drop_encodeU16,
      ih (fun y hy => h y (by simp [hy]))]

theorem decode_encodeU32List (l : List Nat) (rest : List Nat) (h : ∀ x ∈ l, x < 4294967296) :
    decodeU32List (encodeU32List l ++ rest) l.length = l := by
  induction l with
  | nil => rfl
  | cons x xs ih =>
    simp only [encodeU32List, List.length_cons, List.append_assoc]
    simp only [decodeU32List]
    rw [readU32_encode x _ (h x (by simp)), drop_encodeU32,
      ih (fun y hy => h y (by simp [hy]))]

theorem encodeU16List_append (l1 l2 : List Nat) :
    encodeU16List (l1 ++ l2) = encodeU16List l1 ++ encodeU16List l2 := by
  induction l1 with
  | nil => rfl
  | cons x xs ih => simp [encodeU16List, ih]

theorem take_eq_encodeU16 (l : List Nat) (h : ∀ x ∈ l, x < 256) (hlen : 2 ≤ l.length) :
    encodeU16 (readU16 l 0) = l.take 2 := by
  rcases l with _ | ⟨x0, _ | ⟨x1, rest⟩⟩ <;> simp at hlen
  have hx0 := h x0 (by simp)
  have hx1 := h x1 (by simp)
  simp [encodeU16, readU16]
  constructor <;> omega

theorem take_eq_encodeU32 (l : List Nat) (h : ∀ x ∈ l, x < 256) (hlen : 4 ≤ l.length) :
    encodeU32 (readU32 l 0) = l.take 4 := by
  rcases l with _ | ⟨x0, _ | ⟨x1, _ | ⟨x2, _ | ⟨x3, rest⟩⟩⟩⟩ <;> simp at hlen
  have hx0 := h x0 (by simp)
  have hx1 := h x1 (by simp)
  have hx2 := h x2 (by simp)
  have hx3 := h x3 (by simp)
  simp [encodeU32, readU32]
  refine ⟨?_, ?_, ?_, ?_⟩ <;> omega

theorem encode_decodeU16List (n : Nat) : ∀ bs : List Nat, (∀ x ∈ bs, x < 256) →
    2 * n ≤ bs.length → encodeU16List (decodeU16List bs n) = bs.take (2 * n) := by
  induction n with
  | zero => intro bs h hlen; simp [decodeU16List, encodeU16List]
  | succ n ih =>
    intro bs h hlen
    simp only [decodeU16List, encodeU16List]
    rw [take_eq_encodeU16 bs h (by omega),
      ih (bs.drop 2) (fun y hy => h y (List.mem_of_mem_drop hy))
        (by rw [List.length_drop]; omega)]
    rw [show 2 * (n + 1) = 2 + 2 * n from by ring, List.take_add]

theorem encode_decodeU32List (n : Nat) : ∀ bs : List Nat, (∀ x ∈ bs, x < 256) →
    4 * n ≤ bs.length → encodeU32List (decodeU32List bs n) = bs.take (4 * n) := by
  induction n with
  | zero => intro bs h hlen; simp [decodeU32List, encodeU32List]
  | succ n ih =>
    intro bs h hlen
    simp only [decodeU32List, encodeU32List]
    rw [take_eq_encodeU32 bs h (by omega),
      ih (bs.drop 4) (fun y hy => h y (List.mem_of_mem_drop hy))
        (by rw [List.length_drop]; omega)]
    rw [show 4 * (n + 1) = 4 + 4 * n from by ring, List.take_add]

/-- Reading the serialized header fields back out of the concatenated image. -/
theorem header_reads (b : List Nat) (s o i1 s1 i2n shs hv ev : Nat) (payload : List Nat)
    (hb : b = encodeU32 s ++ (encodeU32 o ++ (encodeU16 i1 ++ (encodeU16 s1 ++ (encodeU16 i2n ++ (encodeU16 shs ++ (encodeU32 hv ++ (encodeU32 ev ++ payload))))))))
    (hs : s < 4294967296) (ho : o < 4294967296) (hi1 : i1 < 65536) (hs1 : s1 < 65536)
    (hi2 : i2n < 65536) (hshs : shs < 65536) (hhv : hv < 4294967296) (hev : ev < 4294967296) :
    readU32 b 0 = s ∧ readU32 b 4 = o ∧ readU16 b 8 = i1 ∧ readU16 b 10 = s1 ∧
    readU16 b 12 = i2n ∧ readU16 b 14 = shs ∧ readU32 b 16 = hv ∧ readU32 b 20 = ev ∧
    b.drop 24 = payload := by
  have d4 : b.drop 4 = encodeU32 o ++ (encodeU16 i1 ++ (encodeU16 s1 ++ (encodeU16 i2n ++ (encodeU16 shs ++ (encodeU32 hv ++ (encodeU32 ev ++ payload)))))) := by
    rw [hb]
    exact drop_encodeU32 _ _
  have d8 : b.drop 8 = encodeU16 i1 ++ (encodeU16 s1 ++ (encodeU16 i2n ++ (encodeU16 shs ++ (encodeU32 hv ++ (encodeU32 ev ++ payload))))) := by
    rw [show (8 : Nat) = 4 + 4 from rfl, ← List.drop_drop, d4]
    exact drop_encodeU32 _ _
  have d10 : b.drop 10 = encodeU16 s1 ++ (encodeU16 i2n ++ (encodeU16 shs ++ (encodeU32 hv ++ (encodeU32 ev ++ payload)))) := by
    rw [show (10 : Nat) = 8 + 2 from rfl, ← List.drop_drop, d8]
    exact drop_encodeU16 _ _
  have d12 : b.drop 12 = encodeU16 i2n ++ (encodeU16 shs ++ (encodeU32 hv ++ (encodeU32 ev ++ payload))) := by
    rw [show (12 : Nat) = 10 + 2 from rfl, ← List.drop_drop, d10]
    exact drop_encodeU16 _ _
  have d14 : b.drop 14 = encodeU16 shs ++ (encodeU32 hv ++ (encodeU32 ev ++ payload)) := by
    rw [show (14 : Nat) = 12 + 2 from rfl, ← List.drop_drop, d12]
    exact drop_encodeU16 _ _
  have d16 : b.drop 16 = encodeU32 hv ++ (encodeU32 ev ++ payload) := by
    rw [show (16 : Nat) = 14 + 2 from rfl, ← List.drop_drop, d14]
    exact drop_encodeU16 _ _
  have d20 : b.drop 20 = encodeU32 ev ++ payload := by
    rw [show (20 : Nat) = 16 + 4 from rfl, ← List.drop_drop, d16]
    exact drop_encodeU32 _ _
  have d24 : b.drop 24 = payload := by
    rw [show (24 : Nat) = 20 + 4 from rfl, ← List.drop_drop, d20]
    exact drop_encodeU32 _ _
  have r0 : readU32 b 0 = s := by
    rw [hb]
    exact readU32_encode _ _ hs
  have r4 : readU32 b 4 = o := by
    rw [readU32_drop, d4]
    exact readU32_encode _ _ ho
  have r8 : readU16 b 8 = i1 := by
    rw [readU16_drop, d8]
    exact readU16_encode _ _ hi1
  have r10 : readU16 b 10 = s1 := by
    rw [readU16_drop, d10]
    exact readU16_encode _ _ hs1
  have r12 : readU16 b 12 = i2n := by
    rw [readU16_drop, d12]
    exact readU16_encode _ _ hi2
  have r14 : readU16 b 14 = shs := by
    rw [readU16_drop, d14]
    exact readU16_encode _ _ hshs
  have r16 : readU32 b 16 = hv := by
    rw [readU32_drop, d16]
    exact readU32_encode _ _ hhv
  have r20 : readU32 b 20 = ev := by
    rw [readU32_drop, d20]
    exact readU32_encode _ _ hev
  exact ⟨r0, r4, r8, r10, r12, r14, r16, r20, d24⟩

theorem UTrie3_eq_of_none (t : UTrie3) (hd : t.data32 = none) :
    (⟨t.index, none, t.indexLength, t.dataLength, t.index2NullOffset, t.dataNullOffset,
      t.highStart, t.shiftedHighStart, t.highValue, t.errorValue, t.initialValue⟩ : UTrie3) = t := by
  rcases t with ⟨ti, td, f3, f4, f5, f6, f7, f8, f9, f10, f11⟩
  cases hd
  rfl

theorem UTrie3_eq_of_some (t : UTrie3) (d : List Nat) (hd : t.data32 = some d) :
    (⟨t.index, some d, t.indexLength, t.dataLength, t.index2NullOffset, t.dataNullOffset,
      t.highStart, t.shiftedHighStart, t.highValue, t.errorValue, t.initialValue⟩ : UTrie3) = t := by
  rcases t with ⟨ti, td, f3, f4, f5, f6, f7, f8, f9, f10, f11⟩
  cases hd
  rfl

/-- Round-trip direction 1: deserializing the image written for a well-formed
trie succeeds and reproduces the trie exactly (hence equal on every code
point and on all metadata), reporting the image length. -/
theorem open_serializeImage (t : UTrie3) (hwf : WellFormed t) :
    utrie3_openFromSerialized (match t.data32 with | none => 0 | some _ => 1) 0
      (utrie3_serializeImage t) ((utrie3_serializedLength t : Nat) : Int) .zero =
    (.zero, some (t, utrie3_serializedLength t)) := by
  have hshs_lt : t.shiftedHighStart < 65536 := by
    have h1 := hwf.highStart_eq
    have h2 := hwf.highStart_le
    omega
  have hixlt := hwf.indexLength_lt
  have hdlt := hwf.dataLength_lt
  have hdnlt := hwf.dataNull_lt
  have hdl4 : t.dataLength / 4 * 4 = t.dataLength := by
    have := hwf.dataLength_mod
    omega
  rcases hd : t.data32 with _ | d
  · -- 16-bit
    have hilen : t.index.length = t.indexLength + t.dataLength := by
      have h := hwf.index_len
      rw [hd] at h
      simpa using h
    have hb : utrie3_serializeImage t =
        encodeU32 UTRIE3_SIG ++ (encodeU32 (t.dataNullOffset * 4096 + 0) ++
        (encodeU16 t.indexLength ++ (encodeU16 (t.dataLength / 4) ++
        (encodeU16 t.index2NullOffset ++ (encodeU16 t.shiftedHighStart ++
        (encodeU32 t.highValue ++ (encodeU32 t.errorValue ++
        (encodeU16List (t.index.take t.indexLength) ++
          encodeU16List ((t.index.drop t.indexLength).take t.dataLength))))))))) := by
      simp [utrie3_serializeImage, hd]
    obtain ⟨r0, r4, r8, r10, r12, r14, r16, r20, d24⟩ :=
      header_reads (utrie3_serializeImage t) UTRIE3_SIG (t.dataNullOffset * 4096 + 0)
        t.indexLength (t.dataLength / 4) t.index2NullOffset t.shiftedHighStart
        t.highValue t.errorValue _ hb (by decide) (by omega) (by omega) (by omega)
        hwf.i2Null_lt hshs_lt hwf.highValue_lt hwf.errorValue_lt
    have hlen_eq : utrie3_serializedLength t = 24 + t.indexLength * 2 + t.dataLength * 2 := by
      simp [utrie3_serializedLength, UTrie3HeaderSize, hd]
    simp only [utrie3_openFromSerialized, UTrie3HeaderSize, hd]
    rw [if_neg (show ¬(U_FAILURE UErrorCode.zero = true) from by decide)]
    rw [if_neg (show ¬(((utrie3_serializedLength t : Nat) : Int) ≤ 0 ∨ 0 % 4 ≠ 0 ∨
        (0 : Int) < 0 ∨ (1 : Int) < 0) from by omega)]
    rw [if_neg (show ¬(((utrie3_serializedLength t : Nat) : Int) < ((24 : Nat) : Int)) from
      by omega)]
    rw [r0]
    rw [if_neg (show ¬(UTRIE3_SIG ≠ UTRIE3_SIG) from by simp)]
    rw [r4]
    rw [if_neg (show ¬((0 : Int) ≠ (((t.dataNullOffset * 4096 + 0) % 256 : Nat) : Int) ∨
        (t.dataNullOffset * 4096 + 0) / 256 % 16 ≠ 0) from by
      push_neg
      constructor
      · have : (t.dataNullOffset * 4096 + 0) % 256 = 0 := by omega
        rw [this]
        simp
      · omega)]
    rw [r8, r10, r12, r14, r16, r20, d24]
    simp only [if_true]
    rw [hdl4]
    rw [if_neg (show ¬(((utrie3_serializedLength t : Nat) : Int) <
        ((24 + t.indexLength * 2 + t.dataLength * 2 : Nat) : Int)) from by omega)]
    have hdecode : decodeU16List (encodeU16List (t.index.take t.indexLength) ++
        encodeU16List ((t.index.drop t.indexLength).take t.dataLength))
        (t.indexLength + t.dataLength) = t.index := by
      rw [← encodeU16List_append]
      have hsplit : t.index.take t.indexLength ++
          (t.index.drop t.indexLength).take t.dataLength = t.index := by
        rw [← List.take_add, ← hilen, List.take_length]
      rw [hsplit, ← List.append_nil (encodeU16List t.index), ← hilen]
      exact decode_encodeU16List t.index [] hwf.index_lt
    rw [hdecode]
    have hde : t.dataEnd = t.indexLength + t.dataLength := by
      simp [UTrie3.dataEnd, UTrie3.dataStart, hd]
    have hinit : (if t.dataNullOffset < t.indexLength + t.dataLength then
        t.index.getD t.dataNullOffset 0 else t.highValue) = t.initialValue := by
      rcases hwf.dataNull with ⟨hA1, hA2⟩ | ⟨hB1, hB2⟩
      · rw [if_pos (by omega)]
        have h0 := hA2 0 (by omega)
        simp only [UTrie3.readData, hd, Nat.add_zero] at h0
        exact h0
      · rw [if_neg (by omega)]
        exact hB2.symm
    have hdn : (t.dataNullOffset * 4096 + 0) / 4096 = t.dataNullOffset := by omega
    rw [hdn, hinit, ← hwf.highStart_eq, hlen_eq, UTrie3_eq_of_none t hd]
  · -- 32-bit
    have hilen : t.index.length = t.indexLength := by
      have h := hwf.index_len
      rw [hd] at h
      simpa using h
    have hdlen : d.length = t.dataLength := hwf.data32_len d hd
    have hb : utrie3_serializeImage t =
        encodeU32 UTRIE3_SIG ++ (encodeU32 (t.dataNullOffset * 4096 + 1) ++
        (encodeU16 t.indexLength ++ (encodeU16 (t.dataLength / 4) ++
        (encodeU16 t.index2NullOffset ++ (encodeU16 t.shiftedHighStart ++
        (encodeU32 t.highValue ++ (encodeU32 t.errorValue ++
        (encodeU16List (t.index.take t.indexLength) ++
          encodeU32List (d.take t.dataLength))))))))) := by
      simp [utrie3_serializeImage, hd]
    obtain ⟨r0, r4, r8, r10, r12, r14, r16, r20, d24⟩ :=
      header_reads (utrie3_serializeImage t) UTRIE3_SIG (t.dataNullOffset * 4096 + 1)
        t.indexLength (t.dataLength / 4) t.index2NullOffset t.shiftedHighStart
        t.highValue t.errorValue _ hb (by decide) (by omega) (by omega) (by omega)
        hwf.i2Null_lt hshs_lt hwf.highValue_lt hwf.errorValue_lt
    have hlen_eq : utrie3_serializedLength t = 24 + t.indexLength * 2 + t.dataLength * 4 := by
      simp [utrie3_serializedLength, UTrie3HeaderSize, hd]
    simp only [utrie3_openFromSerialized, UTrie3HeaderSize, hd]
    rw [if_neg (show ¬(U_FAILURE UErrorCode.zero = true) from by decide)]
    rw [if_neg (show ¬(((utrie3_serializedLength t : Nat) : Int) ≤ 0 ∨ 0 % 4 ≠ 0 ∨
        (1 : Int) < 0 ∨ (1 : Int) < 1) from by omega)]
    rw [if_neg (show ¬(((utrie3_serializedLength t : Nat) : Int) < ((24 : Nat) : Int)) from
      by omega)]
    rw [r0]
    rw [if_neg (show ¬(UTRIE3_SIG ≠ UTRIE3_SIG) from by simp)]
    rw [r4]
    rw [if_neg (show ¬((1 : Int) ≠ (((t.dataNullOffset * 4096 + 1) % 256 : Nat) : Int) ∨
        (t.dataNullOffset * 4096 + 1) / 256 % 16 ≠ 0) from by
      push_neg
      constructor
      · have : (t.dataNullOffset * 4096 + 1) % 256 = 1 := by omega
        rw [this]
        simp
      · omega)]
    rw [r8, r10, r12, r14, r16, r20, d24]
    simp only [show ((1 : Int) = 0) = False from by simp, if_false]
    rw [hdl4]
    rw [if_neg (show ¬(((utrie3_serializedLength t : Nat) : Int) <
        ((24 + t.indexLength * 2 + t.dataLength * 4 : Nat) : Int)) from by omega)]
    have hdecode : decodeU16List (encodeU16List (t.index.take t.indexLength) ++
        encodeU32List (d.take t.dataLength)) t.indexLength = t.index := by
      rw [show t.index.take t.indexLength = t.index from by rw [← hilen, List.take_length],
        ← hilen]
      exact decode_encodeU16List t.index _ hwf.index_lt
    have hdrop32 : (utrie3_serializeImage t).drop (24 + t.indexLength * 2) =
        encodeU32List (d.take t.dataLength) := by
      rw [← List.drop_drop, d24,
        show t.indexLength * 2 = (encodeU16List (t.index.take t.indexLength)).length from by
          rw [encodeU16List_length, List.length_take, hilen]; omega,
        List.drop_left]
    have hd32 : decodeU32List (encodeU32List (d.take t.dataLength)) t.dataLength = d := by
      rw [show d.take t.dataLength = d from by rw [← hdlen, List.take_length],
        ← List.append_nil (encodeU32List d), ← hdlen]
      exact decode_encodeU32List d [] (hwf.data32_lt d hd)
    rw [hdecode, hdrop32, hd32]
    have hdn : (t.dataNullOffset * 4096 + 1) / 4096 = t.dataNullOffset := by omega
    have hde : t.dataEnd = t.dataLength := by
      simp [UTrie3.dataEnd, UTrie3.dataStart, hd]
    have hinit : (if t.dataNullOffset < t.dataLength then d.getD t.dataNullOffset 0
        else t.highValue) = t.initialValue := by
      rcases hwf.dataNull with ⟨hA1, hA2⟩ | ⟨hB1, hB2⟩
      · rw [if_pos (by omega)]
        have h0 := hA2 0 (by omega)
        simp only [UTrie3.readData, hd, Nat.add_zero] at h0
        exact h0
      · rw [if_neg (by omega)]
        exact hB2.symm
    rw [hdn, hinit, ← hwf.highStart_eq, hlen_eq, UTrie3_eq_of_some t d hd]

theorem getD_lt_256 (b : List Nat) (h : ∀ x ∈ b, x < 256) (k : Nat) : b.getD k 0 < 256 := by
  rcases Nat.lt_or_ge k b.length with hk | hk
  · rw [List.getD_eq_getElem b 0 hk]
    exact h _ (List.getElem_mem hk)
  · rw [List.getD_eq_default b 0 hk]
    omega

theorem readU16_lt (b : List Nat) (h : ∀ x ∈ b, x < 256) (k : Nat) : readU16 b k < 65536 := by
  have h0 := getD_lt_256 b h k
  have h1 := getD_lt_256 b h (k + 1)
  unfold readU16
  omega

theorem readU32_lt (b : List Nat) (h : ∀ x ∈ b, x < 256) (k : Nat) :
    readU32 b k < 4294967296 := by
  have h0 := getD_lt_256 b h k
  have h1 := getD_lt_256 b h (k + 1)
  have h2 := getD_lt_256 b h (k + 2)
  have h3 := getD_lt_256 b h (k + 3)
  unfold readU32
  omega

theorem take_glue (b : List Nat) (n m k j : Nat) (hj : j = n + m) :
    (b.drop n).take m ++ (b.drop j).take k = (b.drop n).take (m + k) := by
  subst hj
  rw [List.take_add]
  congr 1
  rw [List.drop_drop]

/-- Round-trip direction 2: for any byte image accepted by
`utrie3_openFromSerialized` (with a declared `length` not exceeding the
buffer), re-serializing the resulting trie reproduces exactly the first
`actualLength` bytes of the image. -/
theorem serializeImage_open (vb : Int) (addr : Nat) (b : List Nat) (length : Int)
    (t : UTrie3) (alen : Nat)
    (hbytes : ∀ x ∈ b, x < 256) (hblen : length ≤ (b.length : Int))
    (hopen : utrie3_openFromSerialized vb addr b length .zero = (.zero, some (t, alen))) :
    utrie3_serializeImage t = b.take alen := by
  simp only [utrie3_openFromSerialized, UTrie3HeaderSize] at hopen
  rw [if_neg (show ¬(U_FAILURE UErrorCode.zero = true) from by decide)] at hopen
  by_cases h1 : length ≤ 0 ∨ addr % 4 ≠ 0 ∨ vb < 0 ∨ 1 < vb
  · rw [if_pos h1] at hopen
    simp at hopen
  rw [if_neg h1] at hopen
  push_neg at h1
  by_cases h2 : length < ((24 : Nat) : Int)
  · rw [if_pos h2] at hopen
    simp at hopen
  rw [if_neg h2] at hopen
  by_cases h3 : readU32 b 0 ≠ UTRIE3_SIG
  · rw [if_pos h3] at hopen
    simp at hopen
  rw [if_neg h3] at hopen
  push_neg at h3
  by_cases h4 : vb ≠ ((readU32 b 4 % 256 : Nat) : Int) ∨ readU32 b 4 / 256 % 16 ≠ 0
  · rw [if_pos h4] at hopen
    simp at hopen
  rw [if_neg h4] at hopen
  push_neg at h4
  obtain ⟨hvbopt, hres⟩ := h4
  by_cases h5 : length <
      ((24 + readU16 b 8 * 2 +
        (if vb = 0 then readU16 b 10 * 4 * 2 else readU16 b 10 * 4 * 4) : Nat) : Int)
  · rw [if_pos h5] at hopen
    simp at hopen
  rw [if_neg h5] at hopen
  push_neg at h5
  have hb24 : 24 ≤ b.length := by
    have : ((24 : Nat) : Int) ≤ (b.length : Int) := le_trans (not_lt.mp h2) hblen
    exact_mod_cast this
  have hbytesd : ∀ k : Nat, ∀ x ∈ b.drop k, x < 256 :=
    fun k x hx => hbytes x (List.mem_of_mem_drop hx)
  -- header byte reconstruction, common to both widths
  have e0 : encodeU32 UTRIE3_SIG = b.take 4 := by
    rw [← h3]
    exact take_eq_encodeU32 b hbytes (by omega)
  have e4 : encodeU32 (readU32 b 4) = (b.drop 4).take 4 := by
    rw [readU32_drop]
    exact take_eq_encodeU32 (b.drop 4) (hbytesd 4) (by rw [List.length_drop]; omega)
  have e8 : encodeU16 (readU16 b 8) = (b.drop 8).take 2 := by
    rw [readU16_drop]
    exact take_eq_encodeU16 (b.drop 8) (hbytesd 8) (by rw [List.length_drop]; omega)
  have e10 : encodeU16 (readU16 b 10) = (b.drop 10).take 2 := by
    rw [readU16_drop]
    exact take_eq_encodeU16 (b.drop 10) (hbytesd 10) (by rw [List.length_drop]; omega)
  have e12 : encodeU16 (readU16 b 12) = (b.drop 12).take 2 := by
    rw [readU16_drop]
    exact take_eq_encodeU16 (b.drop 12) (hbytesd 12) (by rw [List.length_drop]; omega)
  have e14 : encodeU16 (readU16 b 14) = (b.drop 14).take 2 := by
    rw [readU16_drop]
    exact take_eq_encodeU16 (b.drop 14) (hbytesd 14) (by rw [List.length_drop]; omega)
  have e16 : encodeU32 (readU32 b 16) = (b.drop 16).take 4 := by
    rw [readU32_drop]
    exact take_eq_encodeU32 (b.drop 16) (hbytesd 16) (by rw [List.length_drop]; omega)
  have e20 : encodeU32 (readU32 b 20) = (b.drop 20).take 4 := by
    rw [readU32_drop]
    exact take_eq_encodeU32 (b.drop 20) (hbytesd 20) (by rw [List.length_drop]; omega)
  have hsdl : readU16 b 10 * 4 / 4 = readU16 b 10 := by omega
  by_cases hvb : vb = 0
  · -- 16-bit value width
    simp only [if_pos hvb] at hopen h5
    have hopt0 : readU32 b 4 % 256 = 0 := by
      rw [hvb] at hvbopt
      exact_mod_cast hvbopt.symm
    have hoptrt : readU32 b 4 / 4096 * 4096 + 0 = readU32 b 4 := by omega
    have hactual : 24 + readU16 b 8 * 2 + readU16 b 10 * 4 * 2 ≤ b.length := by
      have : ((24 + readU16 b 8 * 2 + readU16 b 10 * 4 * 2 : Nat) : Int) ≤ (b.length : Int) :=
        le_trans h5 hblen
      exact_mod_cast this
    simp only [Prod.mk.injEq, Option.some.injEq, true_and] at hopen
    obtain ⟨ht, halen⟩ := hopen
    subst halen
    subst ht
    simp only [utrie3_serializeImage]
    rw [hoptrt, hsdl, e0, e4, e8, e10, e12, e14, e16, e20]
    have hilen : (decodeU16List (b.drop 24) (readU16 b 8 + readU16 b 10 * 4)).length =
        readU16 b 8 + readU16 b 10 * 4 := decodeU16List_length _ _
    have hsplit : (decodeU16List (b.drop 24) (readU16 b 8 + readU16 b 10 * 4)).take (readU16 b 8) ++
        ((decodeU16List (b.drop 24) (readU16 b 8 + readU16 b 10 * 4)).drop (readU16 b 8)).take
          (readU16 b 10 * 4) =
        decodeU16List (b.drop 24) (readU16 b 8 + readU16 b 10 * 4) := by
      rw [← List.take_add]
      exact List.take_of_length_le hilen.le
    have hpayload : encodeU16List (decodeU16List (b.drop 24) (readU16 b 8 + readU16 b 10 * 4)) =
        (b.drop 24).take (2 * (readU16 b 8 + readU16 b 10 * 4)) :=
      encode_decodeU16List _ _ (hbytesd 24) (by rw [List.length_drop]; omega)
    rw [← encodeU16List_append, hsplit, hpayload]
    rw [show b.take 4 = (b.drop 0).take 4 from by rw [List.drop_zero]]
    rw [take_glue b 0 4 4 4 (by norm_num)]
    rw [take_glue b 0 (4 + 4) 2 8 (by norm_num)]
    rw [take_glue b 0 (4 + 4 + 2) 2 10 (by norm_num)]
    rw [take_glue b 0 (4 + 4 + 2 + 2) 2 12 (by norm_num)]
    rw [take_glue b 0 (4 + 4 + 2 + 2 + 2) 2 14 (by norm_num)]
    rw [take_glue b 0 (4 + 4 + 2 + 2 + 2 + 2) 4 16 (by norm_num)]
    rw [take_glue b 0 (4 + 4 + 2 + 2 + 2 + 2 + 4) 4 20 (by norm_num)]
    rw [take_glue b 0 (4 + 4 + 2 + 2 + 2 + 2 + 4 + 4)
      (2 * (readU16 b 8 + readU16 b 10 * 4)) 24 (by norm_num)]
    rw [List.drop_zero]
    congr 1
    omega
  · -- 32-bit value width
    simp only [if_neg hvb] at hopen h5
    have hvb1 : vb = 1 := by omega
    have hopt1 : readU32 b 4 % 256 = 1 := by
      rw [hvb1] at hvbopt
      exact_mod_cast hvbopt.symm
    have hoptrt : readU32 b 4 / 4096 * 4096 + 1 = readU32 b 4 := by omega
    have hactual : 24 + readU16 b 8 * 2 + readU16 b 10 * 4 * 4 ≤ b.length := by
      have : ((24 + readU16 b 8 * 2 + readU16 b 10 * 4 * 4 : Nat) : Int) ≤ (b.length : Int) :=
        le_trans h5 hblen
      exact_mod_cast this
    simp only [Prod.mk.injEq, Option.some.injEq, true_and] at hopen
    obtain ⟨ht, halen⟩ := hopen
    subst halen
    subst ht
    simp only [utrie3_serializeImage]
    rw [hoptrt, hsdl, e0, e4, e8, e10, e12, e14, e16, e20]
    have hilen : (decodeU16List (b.drop 24) (readU16 b 8)).length = readU16 b 8 :=
      decodeU16List_length _ _
    have hdlen : (decodeU32List (b.drop (24 + readU16 b 8 * 2)) (readU16 b 10 * 4)).length =
        readU16 b 10 * 4 := decodeU32List_length _ _
    have hitake : (decodeU16List (b.drop 24) (readU16 b 8)).take (readU16 b 8) =
        decodeU16List (b.drop 24) (readU16 b 8) :=
      List.take_of_length_le hilen.le
    have hdtake : (decodeU32List (b.drop (24 + readU16 b 8 * 2)) (readU16 b 10 * 4)).take
        (readU16 b 10 * 4) = decodeU32List (b.drop (24 + readU16 b 8 * 2)) (readU16 b 10 * 4) :=
      List.take_of_length_le hdlen.le
    have hpayload16 : encodeU16List (decodeU16List (b.drop 24) (readU16 b 8)) =
        (b.drop 24).take (2 * readU16 b 8) :=
      encode_decodeU16List _ _ (hbytesd 24) (by rw [List.length_drop]; omega)
    have hpayload32 : encodeU32List (decodeU32List (b.drop (24 + readU16 b 8 * 2))
        (readU16 b 10 * 4)) = (b.drop (24 + readU16 b 8 * 2)).take (4 * (readU16 b 10 * 4)) :=
      encode_decodeU32List _ _ (hbytesd (24 + readU16 b 8 * 2))
        (by rw [List.length_drop]; omega)
    rw [hitake, hdtake, hpayload16, hpayload32]
    rw [take_glue b 24 (2 * readU16 b 8) (4 * (readU16 b 10 * 4)) (24 + readU16 b 8 * 2)
      (by omega)]
    rw [show b.take 4 = (b.drop 0).take 4 from by rw [List.drop_zero]]
    rw [take_glue b 0 4 4 4 (by norm_num)]
    rw [take_glue b 0 (4 + 4) 2 8 (by norm_num)]
    rw [take_glue b 0 (4 + 4 + 2) 2 10 (by norm_num)]
    rw [take_glue b 0 (4 + 4 + 2 + 2) 2 12 (by norm_num)]
    rw [take_glue b 0 (4 + 4 + 2 + 2 + 2) 2 14 (by norm_num)]
    rw [take_glue b 0 (4 + 4 + 2 + 2 + 2 + 2) 4 16 (by norm_num)]
    rw [take_glue b 0 (4 + 4 + 2 + 2 + 2 + 2 + 4) 4 20 (by norm_num)]
    rw [take_glue b 0 (4 + 4 + 2 + 2 + 2 + 2 + 4 + 4)
      (2 * readU16 b 8 + 4 * (readU16 b 10 * 4)) 24 (by norm_num)]
    rw [List.drop_zero]
    congr 1
    omega

/-- Counterexample to the second half of C2 as stated: the image
`tinyImage ++ [1]` (a valid 24-byte header followed by one stray byte) is
accepted by `utrie3_openFromSerialized` with declared length 25, but
re-serializing the resulting trie produces only the 24 header bytes, not
the original image byte-for-byte. -/
theorem utrie3_roundTrip_counterexample :
    utrie3_openFromSerialized 0 0 (tinyImage ++ [1]) 25 .zero =
      (.zero, some (tinyTrie, 24)) ∧
    utrie3_serializeImage tinyTrie ≠ tinyImage ++ [1] :=
  ⟨by decide, by decide⟩

/-- C2 (amended): (i) deserializing the image serialized from a well-formed
trie `t` succeeds and yields `t` itself (hence equal on every code point and
on all metadata), and (ii) for every byte image `b` accepted by
`utrie3_openFromSerialized` (with the declared length within the buffer),
re-serializing the resulting trie reproduces the first `actualLength` bytes
of `b` — all of `b` exactly when the declared length equals the actual
length; as originally stated (byte-for-byte reproduction of all of `b`) the
claim fails for accepted images with trailing bytes. -/
theorem utrie3_roundTrip (t : UTrie3) (hwf : WellFormed t)
    (vb : Int) (addr : Nat) (b : List Nat) (length : Int) (t' : UTrie3) (alen : Nat)
    (hbytes : ∀ x ∈ b, x < 256) (hblen : length ≤ (b.length : Int))
    (hopen : utrie3_openFromSerialized vb addr b length .zero = (.zero, some (t', alen))) :
    utrie3_openFromSerialized (match t.data32 with | none => 0 | some _ => 1) 0
        (utrie3_serializeImage t) ((utrie3_serializedLength t : Nat) : Int) .zero =
      (.zero, some (t, utrie3_serializedLength t)) ∧
    utrie3_serializeImage t' = b.take alen :=
  ⟨open_serializeImage t hwf, serializeImage_open vb addr b length t' alen hbytes hblen hopen⟩

/-- Witness for C2 at concrete inputs: the well-formed `demoTrie` for
direction (i) and the accepted 25-byte image `tinyImage ++ [1]` for
direction (ii). -/
theorem utrie3_roundTrip_witness :
    (∀ x ∈ tinyImage ++ [1], x < 256) ∧
    ((25 : Int) ≤ (((tinyImage ++ [1]).length : Nat) : Int)) ∧
    (utrie3_openFromSerialized 0 0 (tinyImage ++ [1]) 25 .zero =
      (.zero, some (tinyTrie, 24))) ∧
    (utrie3_openFromSerialized 0 0 (utrie3_serializeImage demoTrie)
        ((utrie3_serializedLength demoTrie : Nat) : Int) .zero =
      (.zero, some (demoTrie, utrie3_serializedLength demoTrie)) ∧
     utrie3_serializeImage tinyTrie = (tinyImage ++ [1]).take 24) :=
  ⟨by decide, by decide, by decide,
   utrie3_roundTrip demoTrie demoTrie_wf 0 0 (tinyImage ++ [1]) 25 tinyTrie 24
     (by decide) (by decide) (by decide)⟩

/-! ## Lemmas for the `utrie3_getRange` correctness proof (C1) -/

/-- With `nullValue = nullValueOf t f`, `maybeHandleValue` is just the
callback application: the `value == trie->initialValue` shortcut returns
exactly what the callback would. -/
theorem maybeHandleValue_nullValueOf (t : UTrie3) (f : UTrie3HandleValue) (v : Nat) :
    maybeHandleValue v t.initialValue (nullValueOf t f) f =
      (match f with | some h => h v | none => v) := by
  unfold maybeHandleValue nullValueOf
  by_cases h : v = t.initialValue
  · rw [if_pos h, h]
  · rw [if_neg h]

/-- `i2BlockOf` depends on a code point only through its 16384-code-point
window. -/
theorem i2BlockOf_window (t : UTrie3) (cp W : Nat) (h : cp / 16384 = W / 16384) :
    i2BlockOf t cp = i2BlockOf t W := by
  unfold i2BlockOf
  have h1 : cp / 32 / 512 = cp / 16384 := by omega
  have h2 : W / 32 / 512 = W / 16384 := by omega
  by_cases hc : cp ≤ 0xffff
  · rw [if_pos hc, if_pos (by omega)]
    omega
  · rw [if_neg hc, if_neg (by omega), h]

/-- Below `highStart`, the data-block offset read through `i2BlockOf` and
`windowBlock` is an in-range data block (invariants 3, 5 and the BMP/supp
bounds). -/
theorem windowBlock_bounds (t : UTrie3) (hwf : WellFormed t) (cp : Nat)
    (hcp : cp < t.highStart) (j : Nat) (hj : j < 512) :
    t.windowBlock (i2BlockOf t cp) j + 32 ≤ t.dataEnd := by
  have hhs := hwf.highStart_le
  unfold UTrie3.windowBlock i2BlockOf
  by_cases hb : cp ≤ 0xffff
  · rw [if_pos hb]
    have hlt : cp / 32 / 512 * 512 + j < 2048 := by omega
    rw [if_neg (by omega)]
    exact hwf.bmp_bounds _ hlt
  · rw [if_neg hb]
    obtain ⟨h2048, hlen, hbound⟩ := hwf.supp (cp / 16384) (by omega) (by omega)
    rw [if_pos h2048]
    exact hbound j hj

/-- The data null block is a real in-range block whenever some in-window
block offset equals `dataNullOffset` (the sentinel alternative of
invariant 4 is out of range), and its entries all transform to `nullValue`. -/
theorem dataNull_entries (t : UTrie3) (hwf : WellFormed t) (f : UTrie3HandleValue)
    (hle : t.dataNullOffset + 32 ≤ t.dataEnd) :
    ∀ j < 32, transformedData t f (t.dataNullOffset + j) = nullValueOf t f := by
  intro j hj
  rcases hwf.dataNull with ⟨-, hfill⟩ | ⟨habs, -⟩
  · unfold transformedData
    rw [hfill j hj]
    unfold maybeHandleValue
    rw [if_pos rfl]
  · omega

/-- `utrie3_get` below `highStart`, decomposed the way the range scan reads
the arrays: through the window's index-2 block and `windowBlock`. -/
theorem get_decomp (t : UTrie3) (hwf : WellFormed t) (cp : Nat)
    (hcp : cp < t.highStart) :
    utrie3_get t (cp : Int) =
      t.readData (t.windowBlock (i2BlockOf t cp) (cp / 32 % 512) + cp % 32) := by
  have hhs := hwf.highStart_le
  have htu : toUInt32 (cp : Int) = cp := toUInt32_natCast cp (by omega)
  unfold utrie3_get
  rw [htu]
  by_cases h7f : cp ≤ 0x7f
  · rw [if_pos h7f, ascii_read_eq]
    have hi2B : i2BlockOf t cp = 0 := by
      unfold i2BlockOf
      rw [if_pos (by omega)]
      omega
    rw [hi2B]
    unfold UTrie3.windowBlock
    rw [if_neg (by omega)]
    have hj : (0 : Nat) + cp / 32 % 512 = cp / 32 := by omega
    rw [hj, hwf.ascii_linear (cp / 32) (by omega)]
    have : t.dataStart + cp = t.dataStart + 32 * (cp / 32) + cp % 32 := by omega
    rw [this]
  · by_cases hb : cp ≤ 0xffff
    · rw [if_neg h7f, if_pos hb]
      unfold indexFromBMP i2BlockOf UTrie3.windowBlock
      rw [if_pos hb, if_neg (by omega)]
      have : cp / 32 / 512 * 512 + cp / 32 % 512 = cp / 32 := by omega
      rw [this]
    · have hgt : ¬(0x10ffff < cp) := by omega
      have hhsc : ¬((t.highStart : Int) ≤ (cp : Int)) := by exact_mod_cast not_le.mpr hcp
      rw [if_neg h7f, if_neg hb, if_neg hgt, if_neg hhsc]
      unfold indexFromSupp i2BlockOf UTrie3.windowBlock
      rw [if_neg hb]
      obtain ⟨h2048, -, -⟩ := hwf.supp (cp / 16384) (by omega) (by omega)
      rw [if_pos (by
        show 2048 ≤ t.index.getD (2044 + cp / 16384) 0
        exact h2048)]
      rfl

/-- Coherence: the transformed value of a code point below `highStart` is the
transformed data entry the range scan reads for it. -/
theorem transformedValue_decomp (t : UTrie3) (hwf : WellFormed t) (f : UTrie3HandleValue)
    (cp : Nat) (hcp : cp < t.highStart) :
    transformedValue t f cp =
      transformedData t f (t.windowBlock (i2BlockOf t cp) (cp / 32 % 512) + cp % 32) := by
  unfold transformedValue transformedData
  rw [get_decomp t hwf cp hcp]

/-- Transformed values at or above `highStart` are the transformed
`highValue`. -/
theorem transformedValue_high (t : UTrie3) (hwf : WellFormed t) (f : UTrie3HandleValue)
    (cp : Nat) (h1 : t.highStart ≤ cp) (h2 : cp ≤ 0x10ffff) :
    transformedValue t f cp =
      maybeHandleValue t.highValue t.initialValue (nullValueOf t f) f := by
  unfold transformedValue
  rw [get_high_aux t hwf cp h1 h2]

/-- Correctness of the innermost data-block scan: starting inside the data
block of `c` (reading entry `di + k` for code point `c + k`), it either
returns early at the last code point of the run (`.inl e`, the next code
point's value differs) or consumes the rest of the data block (`.inr` of the
block end). -/
theorem scanData_spec (t : UTrie3) (f : UTrie3HandleValue) (value : Nat) :
    ∀ (m c di : Nat), 32 - c % 32 ≤ m →
    (∀ k, 0 < k → c % 32 + k < 32 →
      maybeHandleValue (t.readData (di + k)) t.initialValue (nullValueOf t f) f =
        transformedValue t f (c + k)) →
    (∃ e, scanData t f (nullValueOf t f) value c di = .inl e ∧ c ≤ e ∧
      e + 1 < c / 32 * 32 + 32 ∧
      (∀ x, c < x → x ≤ e → transformedValue t f x = value) ∧
      transformedValue t f (e + 1) ≠ value) ∨
    (scanData t f (nullValueOf t f) value c di = .inr (c / 32 * 32 + 32) ∧
      ∀ x, c < x → x < c / 32 * 32 + 32 → transformedValue t f x = value) := by
  intro m
  induction m with
  | zero => intro c di hm hread; omega
  | succ m ih =>
    intro c di hm hread
    by_cases h32 : (c + 1) % 32 = 0
    · right
      have hstep : scanData t f (nullValueOf t f) value c di = .inr (c + 1) := by
        rw [scanData, if_pos h32]
      constructor
      · rw [hstep, show c / 32 * 32 + 32 = c + 1 from by omega]
      · intro x h1 h2
        exact absurd h2 (by omega)
    · have hr1 := hread 1 (by omega) (by omega)
      by_cases hv2 : maybeHandleValue (t.readData (di + 1)) t.initialValue
          (nullValueOf t f) f ≠ value
      · left
        refine ⟨c, ?_, le_refl c, by omega, ?_, ?_⟩
        · rw [scanData, if_pos hv2, if_neg h32]
        · intro x h1 h2
          exact absurd h2 (by omega)
        · rw [← hr1]
          exact hv2
      · push_neg at hv2
        have hstep : scanData t f (nullValueOf t f) value c di =
            scanData t f (nullValueOf t f) value (c + 1) (di + 1) := by
          rw [scanData, if_neg h32, if_neg (by (push_neg); exact hv2)]
        have hread' : ∀ k, 0 < k → (c + 1) % 32 + k < 32 →
            maybeHandleValue (t.readData (di + 1 + k)) t.initialValue (nullValueOf t f) f =
              transformedValue t f (c + 1 + k) := by
          intro k hk hlt
          rw [show di + 1 + k = di + (k + 1) from by omega,
            show c + 1 + k = c + (k + 1) from by omega]
          exact hread (k + 1) (by omega) (by omega)
        have hc1 : transformedValue t f (c + 1) = value := by rw [← hr1, hv2]
        rcases ih (c + 1) (di + 1) (by omega) hread' with
          ⟨e, heq, hce, hlt, hcov, hdiff⟩ | ⟨heq, hcov⟩
        · left
          refine ⟨e, ?_, by omega, by omega, ?_, hdiff⟩
          · rw [hstep, heq]
          · intro x h1 h2
            rcases Nat.eq_or_lt_of_le (Nat.succ_le_of_lt h1) with hx | hx
            · rw [← hx]
              exact hc1
            · exact hcov x (by omega) h2
        · right
          constructor
          · rw [hstep, heq, show (c + 1) / 32 * 32 + 32 = c / 32 * 32 + 32 from by omega]
          · intro x h1 h2
            rcases Nat.eq_or_lt_of_le (Nat.succ_le_of_lt h1) with hx | hx
            · rw [← hx]
              exact hc1
            · exact hcov x (by omega) (by omega)

/-- Transformed value of a code point in data block `i2` of the
16384-aligned window `W`, through the window's index-2 block. -/
theorem transformedValue_window (t : UTrie3) (hwf : WellFormed t) (f : UTrie3HandleValue)
    (W i2 cp : Nat) (hW : W % 16384 = 0) (hi2 : i2 < 512)
    (hcp : cp / 32 = W / 32 + i2) (hhs : cp < t.highStart) :
    transformedValue t f cp =
      transformedData t f (t.windowBlock (i2BlockOf t W) i2 + cp % 32) := by
  rw [transformedValue_decomp t hwf f cp hhs,
    i2BlockOf_window t cp W (by omega),
    show cp / 32 % 512 = i2 from by omega]

/-- `highStart` is a multiple of 16384, so a window that starts below it ends
at or below it. -/
theorem window_end_le_highStart (t : UTrie3) (hwf : WellFormed t) (W : Nat)
    (hW : W % 16384 = 0) (hlt : W < t.highStart) : W + 16384 ≤ t.highStart := by
  have h := hwf.highStart_eq
  omega

theorem innerLoop_exit (t : UTrie3) (f : UTrie3HandleValue) (nv : Nat) (start : Nat)
    (i2B i2 c : Nat) (pb : Int) (v : Option Nat) (h512 : ¬ i2 < 512) :
    innerLoop t f nv start i2B i2 c pb v = .cont c pb v := by
  rw [innerLoop, dif_neg h512]

/-- One unfolding step of `innerLoop`, with the data-block offset written via
`windowBlock`. -/
theorem innerLoop_unfold (t : UTrie3) (f : UTrie3HandleValue) (nv : Nat) (start : Nat)
    (i2B i2 c : Nat) (pb : Int) (v : Option Nat) (h512 : i2 < 512) :
    innerLoop t f nv start i2B i2 c pb v =
      (let block := t.windowBlock i2B i2
       if (block : Int) = pb ∧ 32 ≤ c - start then
         innerLoop t f nv start i2B (i2 + 1) (c + 32) pb v
       else if block = t.dataNullOffset then
         match v with
         | some value =>
           if nv ≠ value then .ret ((c : Int) - 1) v
           else innerLoop t f nv start i2B (i2 + 1) ((c + 32) / 32 * 32) (block : Int) v
         | none =>
           innerLoop t f nv start i2B (i2 + 1) ((c + 32) / 32 * 32) (block : Int) (some nv)
       else
         let di := block + c % 32
         let value2 := maybeHandleValue (t.readData di) t.initialValue nv f
         match v with
         | some value =>
           if value2 ≠ value then .ret ((c : Int) - 1) v
           else
             match scanData t f nv value c di with
             | .inl e => .ret (e : Int) v
             | .inr c2 => innerLoop t f nv start i2B (i2 + 1) c2 (block : Int) v
         | none =>
           match scanData t f nv value2 c di with
           | .inl e => .ret (e : Int) (some value2)
           | .inr c2 => innerLoop t f nv start i2B (i2 + 1) c2 (block : Int) (some value2)) := by
  rw [innerLoop, dif_pos h512]
  rfl

/-- Correctness of the inner per-index-2-block loop of `utrie3_getRange`:
starting at `c` in data block `i2` of the 16384-aligned window `W` (below
`highStart`), it either returns the inclusive end of a maximal run, or
consumes the window up to `W + 16384` maintaining the value-state
invariant. -/
theorem innerLoop_spec (t : UTrie3) (hwf : WellFormed t) (f : UTrie3HandleValue)
    (start W : Nat) (hW : W % 16384 = 0) (hWhs : W < t.highStart) :
    ∀ (n i2 c : Nat) (prevBlock : Int) (v : Option Nat),
    512 - i2 ≤ n → i2 ≤ 512 → c / 32 = W / 32 + i2 →
    (c % 32 = 0 ∨ (c = start ∧ i2 < 512)) →
    valueState t f start c prevBlock v →
    (∃ e value,
      innerLoop t f (nullValueOf t f) start (i2BlockOf t W) i2 c prevBlock v =
        .ret ((e : Nat) : Int) (some value) ∧
      start ≤ e ∧ e + 1 < t.highStart ∧ rangeCovered t f start (e + 1) value ∧
      transformedValue t f (e + 1) ≠ value) ∨
    (∃ pb' v',
      innerLoop t f (nullValueOf t f) start (i2BlockOf t W) i2 c prevBlock v =
        .cont (W + 16384) pb' v' ∧
      valueState t f start (W + 16384) pb' v') := by
  have hwin : W + 16384 ≤ t.highStart := window_end_le_highStart t hwf W hW hWhs
  intro n
  induction n with
  | zero =>
    intro i2 c prevBlock v hn hile hc halign hvs
    have h512 : ¬ i2 < 512 := by omega
    have hc32 : c % 32 = 0 := by
      rcases halign with h | ⟨-, h⟩
      · exact h
      · omega
    have hceq : c = W + 16384 := by omega
    right
    exact ⟨prevBlock, v, by rw [innerLoop_exit t f _ start _ i2 c prevBlock v h512, hceq],
      hceq ▸ hvs⟩
  | succ n ih =>
    intro i2 c prevBlock v hn hile hc halign hvs
    by_cases h512 : i2 < 512
    swap
    · have hc32 : c % 32 = 0 := by
        rcases halign with h | ⟨-, h⟩
        · exact h
        · omega
      have hceq : c = W + 16384 := by omega
      right
      exact ⟨prevBlock, v, by rw [innerLoop_exit t f _ start _ i2 c prevBlock v h512, hceq],
        hceq ▸ hvs⟩
    · have hW32 : W % 32 = 0 := by omega
      have hcW : c < W + 16384 := by omega
      have hchs : c < t.highStart := by omega
      rw [innerLoop_unfold t f (nullValueOf t f) start (i2BlockOf t W) i2 c prevBlock v h512]
      dsimp only
      have hB32 : t.windowBlock (i2BlockOf t W) i2 + 32 ≤ t.dataEnd :=
        windowBlock_bounds t hwf W hWhs i2 h512
      set B := t.windowBlock (i2BlockOf t W) i2 with hB
      have hcoh : ∀ x, x / 32 = W / 32 + i2 →
          transformedValue t f x = transformedData t f (B + x % 32) := by
        intro x hx
        exact transformedValue_window t hwf f W i2 x hW h512 hx (by omega)
      by_cases hskip : (B : Int) = prevBlock ∧ 32 ≤ c - start
      · rw [if_pos hskip]
        rcases hvs with ⟨-, hceq⟩ | ⟨value, hv, hlt, hcov, hbi⟩
        · exact absurd hskip.2 (by omega)
        · have hc32 : c % 32 = 0 := by
            rcases halign with h | ⟨hceq, -⟩
            · exact h
            · omega
          have hs32 : start + 32 ≤ c := by omega
          obtain ⟨pb, hpbeq, hpbprop⟩ := hbi hc32 hs32
          have hBpb : B = pb := by
            have h := hskip.1.trans hpbeq
            exact_mod_cast h
          have hcov' : rangeCovered t f start (c + 32) value := by
            intro cp hcp1 hcp2
            by_cases hcpc : cp < c
            · exact hcov cp hcp1 hcpc
            · push_neg at hcpc
              rw [hcoh cp (by omega), hBpb]
              exact hpbprop (cp % 32) (by omega)
          refine ih (i2 + 1) (c + 32) prevBlock v (by omega) (by omega) (by omega)
            (Or.inl (by omega)) ?_
          right
          exact ⟨value, hv, by omega, hcov', fun h1 h2 => ⟨pb, hpbeq, hpbprop⟩⟩
      · rw [if_neg hskip]
        by_cases hnullB : B = t.dataNullOffset
        · rw [if_pos hnullB]
          have hdnval := dataNull_entries t hwf f (hnullB ▸ hB32)
          have hcovblock : ∀ cp, c ≤ cp → cp < c / 32 * 32 + 32 →
              transformedValue t f cp = nullValueOf t f := by
            intro cp h1 h2
            rw [hcoh cp (by omega), hnullB]
            exact hdnval (cp % 32) (by omega)
          rcases hvs with ⟨hv, hceq⟩ | ⟨value, hv, hlt, hcov, hbi⟩
          · subst hv
            dsimp only
            refine ih (i2 + 1) ((c + 32) / 32 * 32) (B : Int) (some (nullValueOf t f))
              (by omega) (by omega) (by omega) (Or.inl (by omega)) ?_
            right
            refine ⟨nullValueOf t f, rfl, by omega, ?_, ?_⟩
            · intro cp h1 h2
              exact hcovblock cp (by omega) (by omega)
            · intro h1 h2
              refine ⟨B, rfl, ?_⟩
              intro j hj
              rw [hnullB]
              exact hdnval j hj
          · subst hv
            dsimp only
            by_cases hnv : nullValueOf t f ≠ value
            · rw [if_pos hnv]
              left
              have hc1 : 1 ≤ c := by omega
              refine ⟨c - 1, value, ?_, by omega, by omega, ?_, ?_⟩
              · rw [show ((c : Int) - 1) = (((c - 1 : Nat)) : Int) from by omega]
              · rw [show c - 1 + 1 = c from by omega]
                exact hcov
              · rw [show c - 1 + 1 = c from by omega,
                  hcovblock c (le_refl c) (by omega)]
                exact hnv
            · rw [if_neg hnv]
              push_neg at hnv
              refine ih (i2 + 1) ((c + 32) / 32 * 32) (B : Int) (some value)
                (by omega) (by omega) (by omega) (Or.inl (by omega)) ?_
              right
              refine ⟨value, rfl, by omega, ?_, ?_⟩
              · intro cp h1 h2
                by_cases hcpc : cp < c
                · exact hcov cp h1 hcpc
                · rw [hcovblock cp (by omega) (by omega)]
                  exact hnv
              · intro h1 h2
                refine ⟨B, rfl, ?_⟩
                intro j hj
                rw [hnullB, hdnval j hj]
                exact hnv
        · rw [if_neg hnullB]
          set V2 := maybeHandleValue (t.readData (B + c % 32)) t.initialValue
            (nullValueOf t f) f with hV2
          have hVc : transformedValue t f c = V2 := by
            rw [hcoh c hc, hV2]
            rfl
          have hread : ∀ k, 0 < k → c % 32 + k < 32 →
              maybeHandleValue (t.readData (B + c % 32 + k)) t.initialValue
                (nullValueOf t f) f = transformedValue t f (c + k) := by
            intro k hk hlt2
            rw [hcoh (c + k) (by omega), show (c + k) % 32 = c % 32 + k from by omega,
              ← Nat.add_assoc]
            rfl
          rcases hvs with ⟨hv, hceq⟩ | ⟨value, hv, hlt, hcov, hbi⟩
          · subst hv
            dsimp only
            rcases scanData_spec t f V2 32 c (B + c % 32) (by omega) hread with
              ⟨e, heq, hce, helt, hcove, hdiffe⟩ | ⟨heq, hcove⟩
            · rw [heq]
              left
              refine ⟨e, V2, rfl, by omega, by omega, ?_, hdiffe⟩
              intro cp h1 h2
              rcases Nat.lt_or_ge cp (c + 1) with hcp | hcp
              · rw [show cp = c from by omega]
                exact hVc
              · exact hcove cp (by omega) (by omega)
            · rw [heq]
              have hcovnew : rangeCovered t f start (c / 32 * 32 + 32) V2 := by
                intro cp h1 h2
                rcases Nat.lt_or_ge cp (c + 1) with hcp | hcp
                · rw [show cp = c from by omega]
                  exact hVc
                · exact hcove cp (by omega) h2
              refine ih (i2 + 1) (c / 32 * 32 + 32) (B : Int) (some V2)
                (by omega) (by omega) (by omega) (Or.inl (by omega)) ?_
              right
              refine ⟨V2, rfl, by omega, hcovnew, ?_⟩
              intro h1 h2
              refine ⟨B, rfl, ?_⟩
              intro j hj
              have hx := hcoh (c / 32 * 32 + j) (by omega)
              rw [show (c / 32 * 32 + j) % 32 = j from by omega] at hx
              rw [← hx]
              exact hcovnew (c / 32 * 32 + j) (by omega) (by omega)
          · subst hv
            dsimp only
            by_cases hVv : V2 ≠ value
            · rw [if_pos hVv]
              left
              have hc1 : 1 ≤ c := by omega
              refine ⟨c - 1, value, ?_, by omega, by omega, ?_, ?_⟩
              · rw [show ((c : Int) - 1) = (((c - 1 : Nat)) : Int) from by omega]
              · rw [show c - 1 + 1 = c from by omega]
                exact hcov
              · rw [show c - 1 + 1 = c from by omega, hVc]
                exact hVv
            · rw [if_neg hVv]
              push_neg at hVv
              rcases scanData_spec t f value 32 c (B + c % 32) (by omega) hread with
                ⟨e, heq, hce, helt, hcove, hdiffe⟩ | ⟨heq, hcove⟩
              · rw [heq]
                left
                refine ⟨e, value, rfl, by omega, by omega, ?_, hdiffe⟩
                intro cp h1 h2
                by_cases hcpc : cp < c
                · exact hcov cp h1 hcpc
                · rcases Nat.lt_or_ge cp (c + 1) with hcp | hcp
                  · rw [show cp = c from by omega, hVc]
                    exact hVv
                  · exact hcove cp (by omega) (by omega)
              · rw [heq]
                have hcovnew : rangeCovered t f start (c / 32 * 32 + 32) value := by
                  intro cp h1 h2
                  by_cases hcpc : cp < c
                  · exact hcov cp h1 hcpc
                  · rcases Nat.lt_or_ge cp (c + 1) with hcp | hcp
                    · rw [show cp = c from by omega, hVc]
                      exact hVv
                    · exact hcove cp (by omega) h2
                refine ih (i2 + 1) (c / 32 * 32 + 32) (B : Int) (some value)
                  (by omega) (by omega) (by omega) (Or.inl (by omega)) ?_
                right
                refine ⟨value, rfl, by omega, hcovnew, ?_⟩
                intro h1 h2
                refine ⟨B, rfl, ?_⟩
                intro j hj
                have hx := hcoh (c / 32 * 32 + j) (by omega)
                rw [show (c / 32 * 32 + j) % 32 = j from by omega] at hx
                rw [← hx]
                exact hcovnew (c / 32 * 32 + j) (by omega) (by omega)

/-- Correctness of the post-loop comparison against `highValue` (lines
326–332): with a run covering `[start, c)` and `c` at or above `highStart`,
it returns either `c - 1` (next value differs) or `MAX_UNICODE`. -/
theorem afterHigh_spec (t : UTrie3) (hwf : WellFormed t) (f : UTrie3HandleValue)
    (start c value : Nat) (hhs : t.highStart ≤ c) (hcmax : c ≤ 0x110000)
    (hstart : start ≤ 0x10ffff) (hlt : start < c)
    (hcov : rangeCovered t f start c value) :
    ∃ e : Nat, afterHigh t f (nullValueOf t f) c (some value) = ((e : Int), some value) ∧
      start ≤ e ∧ e ≤ 0x10ffff ∧ rangeCovered t f start (e + 1) value ∧
      (e = 0x10ffff ∨ transformedValue t f (e + 1) ≠ value) := by
  have hvh : ∀ cp, c ≤ cp → cp ≤ 0x10ffff → transformedValue t f cp =
      maybeHandleValue t.highValue t.initialValue (nullValueOf t f) f :=
    fun cp h1 h2 => transformedValue_high t hwf f cp (by omega) h2
  simp only [afterHigh]
  by_cases hne : maybeHandleValue t.highValue t.initialValue (nullValueOf t f) f ≠ value
  · rw [if_pos hne]
    refine ⟨c - 1, ?_, by omega, by omega, ?_, ?_⟩
    · rw [show ((c : Int) - 1) = (((c - 1 : Nat)) : Int) from by omega]
    · rw [show c - 1 + 1 = c from by omega]
      exact hcov
    · by_cases hc11 : c = 0x110000
      · left
        omega
      · right
        rw [show c - 1 + 1 = c from by omega, hvh c (le_refl c) (by omega)]
        exact hne
  · rw [if_neg hne]
    push_neg at hne
    refine ⟨0x10ffff, rfl, by omega, by omega, ?_, Or.inl rfl⟩
    intro cp h1 h2
    by_cases hcpc : cp < c
    · exact hcov cp h1 hcpc
    · rw [hvh cp (by omega) (by omega)]
      exact hne

/-- Correctness of the outer `do … while (c < highStart)` loop of
`utrie3_getRange`: with fuel at least `highStart - c`, it returns the
inclusive end of a maximal run starting at `start` and the run's value. -/
theorem outerLoop_spec (t : UTrie3) (hwf : WellFormed t) (f : UTrie3HandleValue)
    (start : Nat) (hstart : start ≤ 0x10ffff) :
    ∀ (fuel c : Nat) (prevI2Block prevBlock : Int) (v : Option Nat),
    t.highStart ≤ fuel + c →
    start ≤ c → c < t.highStart →
    (c % 16384 = 0 ∨ c = start) →
    valueState t f start c prevBlock v →
    (∀ value, v = some value → i2Inv t f start c prevI2Block value) →
    ∃ (e value : Nat),
      outerLoop t f (nullValueOf t f) start fuel c prevI2Block prevBlock v =
        ((e : Int), some value) ∧
      start ≤ e ∧ e ≤ 0x10ffff ∧ rangeCovered t f start (e + 1) value ∧
      (e = 0x10ffff ∨ transformedValue t f (e + 1) ≠ value) := by
  intro fuel
  induction fuel with
  | zero =>
    intro c pI pB v hfuel hsc hchs halign hvs hvi2
    exact absurd hfuel (by omega)
  | succ fuel ih =>
    intro c pI pB v hfuel hsc hchs halign hvs hvi2
    have hhs16 : t.highStart % 16384 = 0 := by
      have h := hwf.highStart_eq
      omega
    have hhsle := hwf.highStart_le
    set W := c / 16384 * 16384 with hWdef
    have hWle : W ≤ c := by omega
    have hWgt : c < W + 16384 := by omega
    have hW16 : W % 16384 = 0 := by omega
    have hWhs : W < t.highStart := by omega
    have hwin : W + 16384 ≤ t.highStart := window_end_le_highStart t hwf W hW16 hWhs
    have hi2Bc : (if c ≤ 0xffff then c / 32 / 512 * 512
        else t.index.getD ((2048 - 4) + c / 16384) 0) = i2BlockOf t W := by
      rw [← i2BlockOf_window t c W (by omega)]
      unfold i2BlockOf
      by_cases hb : c ≤ 0xffff
      · rw [if_pos hb]
      · rw [if_neg hb]
    rw [outerLoop.eq_def]
    dsimp only
    rw [hi2Bc]
    by_cases hskip : 0xffff < c ∧ ((i2BlockOf t W : Nat) : Int) = pI ∧ 16384 ≤ c - start
    · rw [if_pos hskip]
      rcases hvs with ⟨hv, hceq⟩ | ⟨value, hv, hlt, hcov, hbi⟩
      · exact absurd hskip.2.2 (by omega)
      · have hc16 : c % 16384 = 0 := by
          rcases halign with h | h
          · exact h
          · omega
        have hs16 : start + 16384 ≤ c := by omega
        obtain ⟨p2, hp2eq, hp2prop⟩ := hvi2 value hv hc16 hs16
        have hI2p2 : i2BlockOf t W = p2 := by
          have h := hskip.2.1.trans hp2eq
          exact_mod_cast h
        have hWc : W = c := by omega
        have hcov' : rangeCovered t f start (c + 16384) value := by
          intro cp h1 h2
          by_cases hcpc : cp < c
          · exact hcov cp h1 hcpc
          · push_neg at hcpc
            have hcp32 : cp / 32 = W / 32 + (cp - W) / 32 := by omega
            have hx := transformedValue_window t hwf f W ((cp - W) / 32) cp hW16
              (by omega) hcp32 (by omega)
            rw [hI2p2] at hx
            rw [hx, show cp % 32 = (cp - W) % 32 from by omega]
            exact hp2prop (cp - W) (by omega)
        have hvs' : valueState t f start (c + 16384) pB v := by
          right
          refine ⟨value, hv, by omega, hcov', ?_⟩
          intro h1 h2
          exact hbi (by omega) (by omega)
        have hvi2' : ∀ value', v = some value' →
            i2Inv t f start (c + 16384) pI value' := by
          intro value' hv'
          rw [hv] at hv'
          obtain rfl : value = value' := by injection hv'
          intro h1 h2
          exact ⟨p2, hp2eq, hp2prop⟩
        by_cases hlt2 : c + 16384 < t.highStart
        · rw [if_pos hlt2]
          exact ih (c + 16384) pI pB v (by omega) (by omega) hlt2 (Or.inl (by omega)) hvs' hvi2'
        · rw [if_neg hlt2]
          rw [hv]
          obtain ⟨e, heq, he1, he2, hcove, hdiff⟩ :=
            afterHigh_spec t hwf f start (c + 16384) value (by omega) (by omega) hstart
              (by omega) hcov'
          exact ⟨e, value, heq, he1, he2, hcove, hdiff⟩
    · rw [if_neg hskip]
      by_cases hnullO : i2BlockOf t W = t.index2NullOffset
      · rw [if_pos hnullO]
        have h2048 : 2048 ≤ t.index2NullOffset := by
          rcases hwf.i2Null with ⟨h, -⟩ | ⟨h, -⟩
          · exact h
          · have h1 : (2048 : Nat) ≤ t.indexLength := hwf.indexLength_ge
            omega
        have hWsupp : ¬ W ≤ 0xffff := by
          intro hWb
          have hbm : i2BlockOf t W = W / 32 / 512 * 512 := by
            unfold i2BlockOf
            rw [if_pos hWb]
          omega
        obtain ⟨hs2048, hslen, hsbnd⟩ := hwf.supp (W / 16384) (by omega) (by omega)
        have hI2eq : t.index.getD (2044 + W / 16384) 0 = i2BlockOf t W := by
          unfold i2BlockOf
          rw [if_neg hWsupp]
        rw [hI2eq] at hs2048 hslen
        have hi2n : (∀ j < 512, t.index.getD (t.index2NullOffset + j) 0 * 4 = t.dataNullOffset) ∧
            t.dataNullOffset + 32 ≤ t.dataEnd ∧
            (∀ j < 32, t.readData (t.dataNullOffset + j) = t.initialValue) := by
          rcases hwf.i2Null with ⟨-, -, he, hd1, hd2⟩ | ⟨hsent, -⟩
          · exact ⟨he, hd1, hd2⟩
          · rw [hnullO] at hslen
            omega
        obtain ⟨hent, hdn32, hdnfill⟩ := hi2n
        have hwb : ∀ j < 512, t.windowBlock (i2BlockOf t W) j = t.dataNullOffset := by
          intro j hj
          unfold UTrie3.windowBlock
          rw [if_pos (by omega)]
          rw [hnullO]
          exact hent j hj
        have hdnval := dataNull_entries t hwf f hdn32
        have hwinval : ∀ cp, W ≤ cp → cp < W + 16384 →
            transformedValue t f cp = nullValueOf t f := by
          intro cp h1 h2
          have hcp32 : cp / 32 = W / 32 + (cp - W) / 32 := by omega
          rw [transformedValue_window t hwf f W ((cp - W) / 32) cp hW16 (by omega) hcp32
            (by omega), hwb ((cp - W) / 32) (by omega)]
          exact hdnval (cp % 32) (by omega)
        rcases hvs with ⟨hv, hceq⟩ | ⟨value, hv, hlt, hcov, hbi⟩
        · subst hv
          dsimp only
          rw [show (c + 16384) / 16384 * 16384 = W + 16384 from by omega]
          have hcov' : rangeCovered t f start (W + 16384) (nullValueOf t f) := by
            intro cp h1 h2
            exact hwinval cp (by omega) h2
          have hvs' : valueState t f start (W + 16384) ((t.dataNullOffset : Nat) : Int)
              (some (nullValueOf t f)) := by
            right
            refine ⟨nullValueOf t f, rfl, by omega, hcov', ?_⟩
            intro h1 h2
            exact ⟨t.dataNullOffset, rfl, fun j hj => hdnval j hj⟩
          have hvi2' : ∀ value', (some (nullValueOf t f) : Option Nat) = some value' →
              i2Inv t f start (W + 16384) ((i2BlockOf t W : Nat) : Int) value' := by
            intro value' hv'
            obtain rfl : nullValueOf t f = value' := by injection hv'
            intro h1 h2
            refine ⟨i2BlockOf t W, rfl, ?_⟩
            intro j hj
            rw [hwb (j / 32) (by omega)]
            exact hdnval (j % 32) (by omega)
          by_cases hlt2 : W + 16384 < t.highStart
          · rw [if_pos hlt2]
            exact ih (W + 16384) _ _ _ (by omega) (by omega) hlt2 (Or.inl (by omega)) hvs' hvi2'
          · rw [if_neg hlt2]
            obtain ⟨e, heq, he1, he2, hcove, hdiff⟩ :=
              afterHigh_spec t hwf f start (W + 16384) (nullValueOf t f) (by omega) (by omega)
                hstart (by omega) hcov'
            exact ⟨e, nullValueOf t f, heq, he1, he2, hcove, hdiff⟩
        · subst hv
          dsimp only
          by_cases hnv : nullValueOf t f ≠ value
          · rw [if_pos hnv]
            have hc1 : 1 ≤ c := by omega
            refine ⟨c - 1, value, ?_, by omega, by omega, ?_, ?_⟩
            · rw [show ((c : Int) - 1) = (((c - 1 : Nat)) : Int) from by omega]
            · rw [show c - 1 + 1 = c from by omega]
              exact hcov
            · right
              rw [show c - 1 + 1 = c from by omega, hwinval c (by omega) (by omega)]
              exact hnv
          · rw [if_neg hnv]
            push_neg at hnv
            rw [show (c + 16384) / 16384 * 16384 = W + 16384 from by omega]
            have hcov' : rangeCovered t f start (W + 16384) value := by
              intro cp h1 h2
              by_cases hcpc : cp < c
              · exact hcov cp h1 hcpc
              · rw [hwinval cp (by omega) h2]
                exact hnv
            have hvs' : valueState t f start (W + 16384) ((t.dataNullOffset : Nat) : Int)
                (some value) := by
              right
              refine ⟨value, rfl, by omega, hcov', ?_⟩
              intro h1 h2
              refine ⟨t.dataNullOffset, rfl, ?_⟩
              intro j hj
              rw [hdnval j hj]
              exact hnv
            have hvi2' : ∀ value', (some value : Option Nat) = some value' →
                i2Inv t f start (W + 16384) ((i2BlockOf t W : Nat) : Int) value' := by
              intro value' hv'
              obtain rfl : value = value' := by injection hv'
              intro h1 h2
              refine ⟨i2BlockOf t W, rfl, ?_⟩
              intro j hj
              rw [hwb (j / 32) (by omega), hdnval (j % 32) (by omega)]
              exact hnv
            by_cases hlt2 : W + 16384 < t.highStart
            · rw [if_pos hlt2]
              exact ih (W + 16384) _ _ _ (by omega) (by omega) hlt2 (Or.inl (by omega))
                hvs' hvi2'
            · rw [if_neg hlt2]
              obtain ⟨e, heq, he1, he2, hcove, hdiff⟩ :=
                afterHigh_spec t hwf f start (W + 16384) value (by omega) (by omega)
                  hstart (by omega) hcov'
              exact ⟨e, value, heq, he1, he2, hcove, hdiff⟩
      · rw [if_neg hnullO]
        have hc32W : c / 32 = W / 32 + c / 32 % 512 := by omega
        have halignI : c % 32 = 0 ∨ (c = start ∧ c / 32 % 512 < 512) := by
          rcases halign with h | h
          · left
            omega
          · right
            exact ⟨h, by omega⟩
        rcases innerLoop_spec t hwf f start W hW16 hWhs 512 (c / 32 % 512) c pB v
            (by omega) (by omega) hc32W halignI hvs with
          ⟨e, value, heq, he1, he2, hcove, hdiff⟩ | ⟨pb', v', heq, hvs'⟩
        · rw [heq]
          exact ⟨e, value, rfl, he1, by omega, hcove, Or.inr hdiff⟩
        · rw [heq]
          dsimp only
          rcases hvs' with ⟨-, hceq⟩ | ⟨value, hv', hlt', hcov', hbi'⟩
          · exact absurd hceq (by omega)
          · have hvi2' : ∀ value', v' = some value' →
                i2Inv t f start (W + 16384) ((i2BlockOf t W : Nat) : Int) value' := by
              intro value' hvv
              rw [hv'] at hvv
              obtain rfl : value = value' := by injection hvv
              intro h1 h2
              refine ⟨i2BlockOf t W, rfl, ?_⟩
              intro j hj
              have hj32 : (W + j) / 32 = W / 32 + j / 32 := by omega
              have hx := transformedValue_window t hwf f W (j / 32) (W + j) hW16
                (by omega) hj32 (by omega)
              rw [show (W + j) % 32 = j % 32 from by omega] at hx
              rw [← hx]
              exact hcov' (W + j) (by omega) (by omega)
            by_cases hlt2 : W + 16384 < t.highStart
            · rw [if_pos hlt2]
              exact ih (W + 16384) _ _ _ (by omega) (by omega) hlt2 (Or.inl (by omega))
                (Or.inr ⟨value, hv', hlt', hcov', hbi'⟩) hvi2'
            · rw [if_neg hlt2]
              rw [hv']
              obtain ⟨e, heq2, he1, he2, hcove, hdiff⟩ :=
                afterHigh_spec t hwf f start (W + 16384) value (by omega) (by omega)
                  hstart (by omega) hcov'
              exact ⟨e, value, heq2, he1, he2, hcove, hdiff⟩

/-- C1: for every well-formed trie and every start code point in
`[0, 0x10FFFF]`, `utrie3_getRange` returns an end in `[start, 0x10FFFF]` and
stores a value such that every code point in `[start, end]` has that
transformed value (the raw `initialValue` being normalized through the
`nullValue` shortcut first), and the end is maximal: either `end = 0x10FFFF`
or the transformed value of `end + 1` differs. -/
theorem utrie3_getRange_spec (t : UTrie3) (hwf : WellFormed t) (f : UTrie3HandleValue)
    (start : Int) (h0 : 0 ≤ start) (hmax : start ≤ 0x10ffff) :
    ∃ (e value : Nat),
      utrie3_getRange t start f = ((e : Int), some value) ∧
      start ≤ (e : Int) ∧ e ≤ 0x10ffff ∧
      (∀ cp : Nat, start ≤ (cp : Int) → cp ≤ e → transformedValue t f cp = value) ∧
      (e = 0x10ffff ∨ transformedValue t f (e + 1) ≠ value) := by
  have ht : toUInt32 start = start.toNat := by
    unfold toUInt32
    omega
  unfold utrie3_getRange
  rw [ht, if_neg (show ¬(MAX_UNICODE < start.toNat) from by
    unfold MAX_UNICODE
    omega)]
  by_cases hhs : (t.highStart : Int) ≤ start
  · rw [if_pos hhs]
    dsimp only
    refine ⟨0x10ffff, (match f with | some h => h t.highValue | none => t.highValue),
      rfl, by omega, le_refl _, ?_, Or.inl rfl⟩
    intro cp h1 h2
    rw [transformedValue_high t hwf f cp (by omega) h2, maybeHandleValue_nullValueOf]
  · rw [if_neg hhs]
    obtain ⟨e, value, heq, he1, he2, hcov, hdiff⟩ :=
      outerLoop_spec t hwf f start.toNat (by omega) t.highStart start.toNat (-1) (-1) none
        (by omega) (le_refl _) (by omega) (Or.inr rfl) (Or.inl ⟨rfl, rfl⟩)
        (fun value hv => nomatch hv)
    refine ⟨e, value, heq, by omega, he2, ?_, hdiff⟩
    intro cp h1 h2
    exact hcov cp (by omega) (by omega)

/-- Witness for C1 at a concrete input: the well-formed `demoTrie`,
`start = 0`, no callback. -/
theorem utrie3_getRange_spec_witness :
    ((0 : Int) ≤ 0) ∧ ((0 : Int) ≤ 0x10ffff) ∧
    ∃ (e value : Nat),
      utrie3_getRange demoTrie 0 none = ((e : Int), some value) ∧
      (0 : Int) ≤ (e : Int) ∧ e ≤ 0x10ffff ∧
      (∀ cp : Nat, (0 : Int) ≤ (cp : Int) → cp ≤ e →
        transformedValue demoTrie none cp = value) ∧
      (e = 0x10ffff ∨ transformedValue demoTrie none (e + 1) ≠ value) :=
  ⟨by decide, by decide,
   utrie3_getRange_spec demoTrie demoTrie_wf none 0 (by decide) (by decide)⟩
